import Mathlib

/-!
Verification of the per-agent decision and movement engine of the
MesaFireEvacuation simulation (`fire_evacuation/agent.py`, with the world
model in `fire_evacuation/model.py`).

The Python code is shallowly embedded: pure functions become Lean
functions, stateful methods become explicit state-passing functions on a
`HumanState` / `MoveHuman` / `EvacModel` record, float arithmetic is
modelled over `ℚ` with `Real.exp` for the transcendental `np.exp`, and
the external collaborators (the mesa grid, the networkx shortest-path
service and the numpy random source) are passed in as explicit
parameters or streams of draws, as the specification describes them
(external services with documented contracts).
-/

namespace FireEvac

/-- Grid cell coordinate, an integer pair as in `mesa.space.Coordinate`. -/
abbrev Coord := Int × Int

/-! ## Bresenham line rasterization (`agent.py::get_line`) -/

/-- Emit a coordinate, undoing the steep-line axis swap:
`(y, x) if line_is_steep else (x, y)` in the source. -/
def bresEmit (steep : Bool) (x y : Int) : Coord :=
  if steep then (y, x) else (x, y)

/-- The main rasterization loop of `get_line`: iterate `x` over the
canonical range, appending a coordinate each step, subtracting `|diff_y|`
from the error margin and stepping `y` when the margin drops below zero.
`n` is the number of remaining iterations (`x2 - x1 + 1` at the start). -/
def bresLoop (ady dx sy : Int) (steep : Bool) : Nat → Int → Int → Int → List Coord
  | 0, _, _, _ => []
  | n + 1, x, y, err =>
    let e2 := err - ady
    if e2 < 0 then
      bresEmit steep x y :: bresLoop ady dx sy steep n (x + 1) (y + sy) (e2 + dx)
    else
      bresEmit steep x y :: bresLoop ady dx sy steep n (x + 1) y e2

/-- Run the rasterization loop between two already axis-normalized points
`a` and `b` with `a.1 ≤ b.1` (the source recomputes `diff_x`, `diff_y`,
the error margin `int(diff_x / 2.0)` and `step_y` after the swaps). -/
def bresRun (a b : Coord) (steep : Bool) : List Coord :=
  let dx := b.1 - a.1
  let dy := b.2 - a.2
  bresLoop |dy| dx (if a.2 < b.2 then 1 else -1) steep (dx.toNat + 1) a.1 a.2 (dx / 2)

/-- `agent.py::get_line`: Bresenham's line algorithm between two integer
coordinates, endpoint-inclusive.  Steep lines swap the axes of both
endpoints; if the start is further along the x-axis the endpoints are
swapped and the resulting path is reversed. -/
def get_line (s e : Coord) : List Coord :=
  if |e.2 - s.2| > |e.1 - s.1| then
    -- steep: swap x and y of each endpoint
    if s.2 > e.2 then (bresRun (e.2, e.1) (s.2, s.1) true).reverse
    else bresRun (s.2, s.1) (e.2, e.1) true
  else
    if s.1 > e.1 then (bresRun e s false).reverse
    else bresRun s e false

/-! ## Occupants of grid cells

The floor-object classes of `agent.py` are modelled as one record with a
kind tag plus the attributes the embedded methods read (`traversable`,
`visibility`, and the mobility of a `Human` occupant). -/

/-- Mobility state machine labels of `Human.Mobility`. -/
inductive Mobility
  | incapacitated
  | normal
  | panic
deriving DecidableEq, Repr

/-- Survival states of `Human.Status`. -/
inductive Status
  | dead
  | alive
  | escaped
deriving DecidableEq, Repr

/-- Planned actions of `Human.Action`. -/
inductive HAction
  | physical_support
  | morale_support
  | verbal_support
  | retreat
deriving DecidableEq, Repr

/-- Class tags for the occupants a grid cell may hold. -/
inductive ObjKind
  | wall
  | door
  | fireExit
  | furniture
  | fire
  | smoke
  | deadHuman
  | sight
  | human
deriving DecidableEq, Repr

/-- A cell occupant: the attributes of the `agent.py` floor-object and
human classes that the embedded methods inspect.  `mobility` is only
meaningful when `kind = human`. -/
structure Occupant where
  kind : ObjKind
  traversable : Bool := true
  visibility : Int := 2
  mobility : Mobility := .normal
deriving DecidableEq, Repr

/-- A `Smoke` floor object (`traversable=True`, default `visibility=2`). -/
def smokeObject : Occupant := { kind := .smoke, traversable := true, visibility := 2 }

/-- A `Wall` floor object (`traversable=False`, default `visibility=2`). -/
def wallObject : Occupant := { kind := .wall, traversable := false, visibility := 2 }

/-- A `Fire` floor object (`traversable=False`, `visibility=20`). -/
def fireObject : Occupant := { kind := .fire, traversable := false, visibility := 20 }

/-- A `FireExit` floor object (`traversable=True`, `visibility=6`). -/
def fireExitObject : Occupant := { kind := .fireExit, traversable := true, visibility := 6 }

/-- A `Sight` visualization marker (`visibility=-1`). -/
def sightObject : Occupant := { kind := .sight, traversable := true, visibility := -1 }

/-- A `Human` occupant as seen on the grid (`self.visibility = 2`,
`self.traversable = False` while not incapacitated). -/
def humanObject (m : Mobility) : Occupant :=
  { kind := .human, traversable := false, visibility := 2, mobility := m }

/-! ## Visibility engine (`Human.get_visible_tiles`) -/

/-- Process the contents of one traced cell, from the inner loop of
`get_visible_tiles`: `Sight` objects are skipped, a `Wall` blocks the ray
immediately (rejecting the rest of the contents), a `Smoke` occupant
increments the running smoke counter, and every examined occupant whose
`visibility` is truthy and strictly greater than the current counter is
appended to the visible contents.  Returns
(blocked, updated smoke counter, visible contents in order). -/
def processContents : List Occupant → Nat → Bool × Nat × List Occupant
  | [], k => (false, k, [])
  | o :: rest, k =>
    if o.kind = .sight then processContents rest k
    else if o.kind = .wall then (true, k, [])
    else
      let k1 := if o.kind = .smoke then k + 1 else k
      let r := processContents rest k1
      if o.visibility ≠ 0 ∧ o.visibility > (k1 : Int) then (r.1, r.2.1, o :: r.2.2)
      else r

/-- Walk the traced cells of one ray in order, threading the smoke
counter and the `checked_tiles` set: a non-blocked tile is added to
`checked_tiles` and recorded with its visible contents; when a wall
blocks the ray, the rest of the path is added to `checked_tiles` and
nothing further is recorded. -/
def processRay (contentsAt : Coord → List Occupant) :
    List Coord → Nat → Finset Coord → List (Coord × List Occupant) × Finset Coord
  | [], _, ch => ([], ch)
  | t :: rest, k, ch =>
    let r := processContents (contentsAt t) k
    if r.1 then ([], ch ∪ (t :: rest).toFinset)
    else
      let pr := processRay contentsAt rest r.2.1 (insert t ch)
      ((t, r.2.2) :: pr.1, pr.2)

/-- The outer loop of `get_visible_tiles`: iterate the (reversed)
neighborhood, skipping target positions already resolved by an earlier
ray, tracing a Bresenham line to each remaining target and accumulating
the per-cell visible contents. -/
def visLoop (contentsAt : Coord → List Occupant) (pos : Coord) :
    List Coord → Finset Coord → List (Coord × List Occupant)
  | [], _ => []
  | p :: ps, ch =>
    if p ∈ ch then visLoop contentsAt pos ps ch
    else
      let pr := processRay contentsAt (get_line pos p) 0 ch
      pr.1 ++ visLoop contentsAt pos ps pr.2

/-- `Human.get_visible_tiles`, parameterized by the cell-contents lookup
and the neighborhood list that the mesa grid service supplies (all cells
within Chebyshev distance `vision`, center included).  The source stores
the result as a set of (cell, tuple-of-visible-occupants) pairs; the
embedding keeps the processed records as a list, which supports the same
membership queries. -/
def get_visible_tiles (contentsAt : Coord → List Occupant) (neighborhood : List Coord)
    (pos : Coord) : List (Coord × List Occupant) :=
  visLoop contentsAt pos neighborhood.reverse ∅

/-- Count of Smoke occupants in a contents list. -/
def smoke_in (L : List Occupant) : Nat := L.countP (fun o => o.kind = .smoke)

/-! ## Human agent state (`Human.__init__`)

Scalar float attributes are modelled over `ℚ`; `np.exp` is modelled by
`Real.exp` on the cast values.  `pos` is `Option Coord` because mesa sets
`agent.pos = None` when the agent is removed from the grid. -/

/-- The per-agent mutable state of a `Human`. -/
structure HumanState where
  pos : Option Coord := none
  prev_pos : Option Coord := none
  health : ℚ := 1
  speed : ℚ := 1
  vision : Int := 2
  nervousness : ℚ := 1
  experience : ℚ := 1
  shock : ℚ := 0
  knowledge : ℚ := 0
  mobility : Mobility := .normal
  morale_boost : Bool := false
  believes_alarm : Bool := false
  carried : Bool := false
  escaped : Bool := false
  collaborates : Bool := false
  traversable : Bool := false
  known_tiles : List (Coord × List Occupant) := []
  visited_tiles : List Coord := []
  visible_tiles : List (Coord × List Occupant) := []
  verbal_collaboration_count : Nat := 0
  morale_collaboration_count : Nat := 0
  physical_collaboration_count : Nat := 0
deriving DecidableEq

/-! Class constants of `Human`. -/

def MIN_HEALTH : ℚ := 0
def MAX_HEALTH : ℚ := 1
def MIN_SPEED : ℚ := 0
def MAX_KNOWLEDGE : ℚ := 1
def MAX_SHOCK : ℚ := 1
def MIN_SHOCK : ℚ := 0
def DEFAULT_SHOCK_MODIFIER : ℚ := -(1/10)
def SHOCK_MODIFIER_DEAD_HUMAN : ℚ := 1
def SHOCK_MODIFIER_FIRE : ℚ := 2/10
def SHOCK_MODIFIER_SMOKE : ℚ := 5/100
def SHOCK_MODIFIER_AFFECTED_HUMAN : ℚ := 1/10
noncomputable def PANIC_THRESHOLD : ℝ := 8/10
def HEALTH_MODIFIER_FIRE : ℚ := 2/10
def HEALTH_MODIFIER_SMOKE : ℚ := 5/1000
def SPEED_MODIFIER_FIRE : ℚ := 2
def SPEED_MODIFIER_SMOKE : ℚ := 1/10
def SLOWDOWN_THRESHOLD : ℚ := 5/10
def MIN_PUSH_DAMAGE : ℚ := 1/100
def MAX_PUSH_DAMAGE : ℚ := 1
def MAX_EXPERIENCE : ℚ := 10

/-- `Human.get_status`: ALIVE while health is positive and not escaped,
DEAD at zero health, ESCAPED once the escape flag is set; the source
falls through to `return None` otherwise. -/
def get_status (s : HumanState) : Option Status :=
  if 0 < s.health ∧ s.escaped = false then some .alive
  else if s.health ≤ 0 ∧ s.escaped = false then some .dead
  else if s.escaped then some .escaped
  else none

/-- `Human.get_panic_score`: the health component `1/exp(health/nervousness)`,
the experience component `1/exp(experience/nervousness)` and the shock
value, averaged. -/
noncomputable def get_panic_score (s : HumanState) : ℝ :=
  let health_component : ℝ := 1 / Real.exp ((s.health : ℝ) / (s.nervousness : ℝ))
  let experience_component : ℝ := 1 / Real.exp ((s.experience : ℝ) / (s.nervousness : ℝ))
  (health_component + experience_component + (s.shock : ℝ)) / 3

/-- The mean of three reals, as the specification phrases the panic
formula (spec-side definition, compared against `get_panic_score`). -/
noncomputable def spec_mean_of_three (a b c : ℝ) : ℝ := (a + b + c) / 3

/-- Total prior collaborations of an agent (verbal + morale + physical). -/
def total_collaboration_count (s : HumanState) : Nat :=
  s.verbal_collaboration_count + s.morale_collaboration_count
    + s.physical_collaboration_count

/-- `Human.get_collaboration_cost`: the mean of the collaboration
component `1/exp(1/(total_count+1))` and the panic score. -/
noncomputable def get_collaboration_cost (s : HumanState) : ℝ :=
  let collaboration_component : ℝ :=
    1 / Real.exp (1 / ((total_collaboration_count s : ℝ) + 1))
  (collaboration_component + get_panic_score s) / 2

/-- `Human.test_collaboration`: the agent collaborates when the uniform
draw strictly exceeds the collaboration cost. -/
def test_collaboration (rand : ℝ) (s : HumanState) : Prop :=
  rand > get_collaboration_cost s

/-! ## Knowledge accumulation (`Human.learn_environment`) -/

/-- Store `known_tiles[pos] = set(agents)`: overwrite an existing key or
append a new entry. -/
def known_update (known : List (Coord × List Occupant)) (p : Coord)
    (v : List Occupant) : List (Coord × List Occupant) :=
  if known.any (fun e => e.1 = p) then
    known.map (fun e => if e.1 = p then (p, v) else e)
  else known ++ [(p, v)]

/-- `Human.learn_environment`, with `total_tiles = grid.width * grid.height`
supplied by the model: when knowledge is still below `MAX_KNOWLEDGE`,
merge every currently visible (cell, occupants) pair into `known_tiles`,
counting cells that were not yet known, and increase knowledge by the
fraction of newly seen cells; otherwise do nothing. -/
def learn_environment (total_tiles : Nat) (s : HumanState) : HumanState :=
  if s.knowledge < MAX_KNOWLEDGE then
    let step := s.visible_tiles.foldl
      (fun acc pr =>
        (known_update acc.1 pr.1 pr.2,
         if acc.1.any (fun e => e.1 = pr.1) then acc.2 else acc.2 + 1))
      (s.known_tiles, (0 : Nat))
    { s with
      known_tiles := step.1
      knowledge := s.knowledge + (step.2 : ℚ) / (total_tiles : ℚ) }
  else s

/-- Apply `learn_environment` to a sequence of views: before each call the
agent's `visible_tiles` are refreshed to the next view (as `Human.step`
does before invoking `learn_environment`). -/
def applyLearn (total_tiles : Nat) (s : HumanState) :
    List (List (Coord × List Occupant)) → HumanState
  | [] => s
  | v :: vs => applyLearn total_tiles (learn_environment total_tiles { s with visible_tiles := v }) vs

/-! ## The full agent record used by the planner and movement engine

`planned_target` is a (tracked agent, cell) pair; the tracked agent and a
carried agent are modelled as embedded `HumanState` snapshots (the source
holds object references). -/

/-- A `Human` together with its plan and carry references. -/
structure MoveHuman where
  self : HumanState := {}
  plannedTargetAgent : Option HumanState := none
  plannedTargetPos : Option Coord := none
  plannedAction : Option HAction := none
  carryingAgent : Option HumanState := none
deriving DecidableEq

/-- `Human.stop_carrying`: if carrying someone, clear the carried agent's
flag, drop the reference and the planned action. -/
def stop_carrying (m : MoveHuman) : MoveHuman :=
  match m.carryingAgent with
  | none => m
  | some _ => { m with carryingAgent := none, plannedAction := none }

/-- `Human.attempt_morale_boost`: with probability `experience / MAX_EXPERIENCE`
(the helper's experience), permanently set the morale-boost flag and
return mobility to NORMAL.  `rand` is the uniform draw. -/
def attempt_morale_boost (helperExperience rand : ℚ) (s : HumanState) :
    HumanState × Bool :=
  if rand < helperExperience / MAX_EXPERIENCE then
    ({ s with morale_boost := true, mobility := .normal }, true)
  else (s, false)

/-- `Human.incapacitate`: stop carrying, set mobility INCAPACITATED and
become traversable by others. -/
def incapacitate (m : MoveHuman) : MoveHuman :=
  let m1 := stop_carrying m
  { m1 with self := { m1.self with mobility := .incapacitated, traversable := true } }

/-- `Human.die`, agent-level effect: mesa's `grid.remove_agent` sets the
agent's position to `None` (the schedule/grid bookkeeping is modelled in
`EvacModel`). -/
def die_agent (m : MoveHuman) : MoveHuman :=
  { m with self := { m.self with pos := none } }

/-- Per-occupant shock contribution of `Human.panic_rules`: each visible
Fire, Smoke, DeadHuman or non-NORMAL Human adds its modifier minus the
default decay (the source adds `MODIFIER - DEFAULT_SHOCK_MODIFIER` in
independent `if` statements). -/
def vis_shock_delta (o : Occupant) : ℚ :=
  (if o.kind = .fire then SHOCK_MODIFIER_FIRE - DEFAULT_SHOCK_MODIFIER else 0)
  + (if o.kind = .smoke then SHOCK_MODIFIER_SMOKE - DEFAULT_SHOCK_MODIFIER else 0)
  + (if o.kind = .deadHuman then SHOCK_MODIFIER_DEAD_HUMAN - DEFAULT_SHOCK_MODIFIER else 0)
  + (if o.kind = .human ∧ o.mobility ≠ .normal then
      SHOCK_MODIFIER_AFFECTED_HUMAN - DEFAULT_SHOCK_MODIFIER else 0)

open scoped Classical in
/-- `Human.panic_rules`: return immediately if morale-boosted; otherwise
accumulate the shock modifier over all visible occupants starting from
the default decay, flip `believes_alarm` when the modifier differs from
the pure decay, clamp shock to [0,1], then compare the recomputed panic
score with the 0.8 threshold: at or above it, stop carrying, enter PANIC
and wipe `known_tiles`/`knowledge`; strictly below it while panicking,
return to NORMAL. -/
noncomputable def panic_rules (m : MoveHuman) : MoveHuman :=
  if m.self.morale_boost then m
  else
    let shock_modifier := DEFAULT_SHOCK_MODIFIER
      + ((m.self.visible_tiles.map (fun pr => (pr.2.map vis_shock_delta).sum)).sum)
    let believes :=
      if m.self.believes_alarm = false ∧ shock_modifier ≠ DEFAULT_SHOCK_MODIFIER then true
      else m.self.believes_alarm
    let shock1 := m.self.shock + shock_modifier
    let shock2 :=
      if shock1 > MAX_SHOCK then MAX_SHOCK
      else if shock1 < MIN_SHOCK then MIN_SHOCK
      else shock1
    let s1 := { m.self with believes_alarm := believes, shock := shock2 }
    if get_panic_score s1 ≥ PANIC_THRESHOLD then
      let m1 := stop_carrying { m with self := s1 }
      { m1 with self := { m1.self with mobility := .panic, known_tiles := [], knowledge := 0 } }
    else if get_panic_score s1 < PANIC_THRESHOLD ∧ s1.mobility = .panic then
      { m with self := { s1 with mobility := .normal } }
    else { m with self := s1 }

/-- The per-occupant body of the `health_mobility_rules` loop: Fire
contact costs health and speed; Smoke contact costs health and, once
health has dropped below the slowdown threshold, speed as well. -/
def hm_step (s : HumanState) (o : Occupant) : HumanState :=
  if o.kind = .fire then
    { s with health := s.health - HEALTH_MODIFIER_FIRE,
             speed := s.speed - SPEED_MODIFIER_FIRE }
  else if o.kind = .smoke then
    let s2 := { s with health := s.health - HEALTH_MODIFIER_SMOKE }
    if s2.health < SLOWDOWN_THRESHOLD then
      { s2 with speed := s2.speed - SPEED_MODIFIER_SMOKE }
    else s2
  else s

/-- `Human.health_mobility_rules`: apply `hm_step` for each occupant of
the 1-radius Moore neighborhood (supplied by the grid service), clamp
health and speed at 0; zero health stops carrying and dies, zero speed
incapacitates. -/
def health_mobility_rules (nb_contents : List Occupant) (m : MoveHuman) : MoveHuman :=
  let s := nb_contents.foldl hm_step m.self
  let s2 := { s with health := if s.health < MIN_HEALTH then MIN_HEALTH else s.health,
                     speed := if s.speed < MIN_SPEED then MIN_SPEED else s.speed }
  if s2.health = MIN_HEALTH then die_agent (stop_carrying { m with self := s2 })
  else if s2.speed = MIN_SPEED then incapacitate { m with self := s2 }
  else { m with self := s2 }

/-- The operations of `agent.py` that write `mobility` or `morale_boost`
(every assignment site of `self.mobility` in the source), plus the
per-tick refresh of `visible_tiles`: used to show the morale-boost flag
makes PANIC unreachable. -/
inductive HOp
  | healthMobility (nb : List Occupant)
  | setVisible (v : List (Coord × List Occupant))
  | panicRules
  | moraleBoost (helperExperience rand : ℚ)
  | faint

/-- Apply one operation to an agent. -/
noncomputable def applyOp (m : MoveHuman) : HOp → MoveHuman
  | .healthMobility nb => health_mobility_rules nb m
  | .setVisible v => { m with self := { m.self with visible_tiles := v } }
  | .panicRules => panic_rules m
  | .moraleBoost he hr => { m with self := (attempt_morale_boost he hr m.self).1 }
  | .faint => incapacitate m

/-- Apply a sequence of operations. -/
noncomputable def applyOps (m : MoveHuman) : List HOp → MoveHuman
  | [] => m
  | op :: ops => applyOps (applyOp m op) ops

/-! ## Plan-validity checks (`Human.update_target`, `Human.update_action`) -/

/-- Drop the planned target and action. -/
def dropPlan (m : MoveHuman) : MoveHuman :=
  { m with plannedTargetAgent := none, plannedTargetPos := none, plannedAction := none }

/-- `Human.update_target`: if a target agent is tracked, refresh the
target cell to the agent's current position, or drop the plan entirely
when the agent no longer has one (removed from the grid). -/
def update_target (m : MoveHuman) : MoveHuman :=
  match m.plannedTargetAgent with
  | none => m
  | some ag =>
    match ag.pos with
    | some cp => if m.plannedTargetPos ≠ some cp then { m with plannedTargetPos := some cp } else m
    | none => dropPlan m

/-- `Human.update_action`, exactly as chained in the source: when a target
agent exists, only a stale MORALE_SUPPORT plan is dropped; when no target
agent exists, a PHYSICAL_SUPPORT plan dereferences the missing agent
(`planned_agent.get_mobility()` on `None`, an AttributeError, modelled as
`none`), a RETREAT plan returns unchanged, and anything else is dropped. -/
def update_action (m : MoveHuman) : Option MoveHuman :=
  match m.plannedTargetAgent with
  | some ag =>
    if m.plannedAction = some .morale_support
        ∧ (ag.mobility ≠ .panic ∨ ¬(get_status ag = some .alive)) then
      some (dropPlan m)
    else some m
  | none =>
    if m.plannedAction = some .physical_support then none
    else if m.plannedAction = some .retreat then some m
    else some (dropPlan m)

/-! ## The grid service and pushing (`Human.push_human_agent`) -/

/-- The environment services the movement engine consumes from the mesa
grid: cell contents, the out-of-bounds test, and whether relocating a
carried agent raises (the source wraps that move in a try/except that
re-raises). -/
structure Env where
  contents : Coord → List Occupant
  outOfBounds : Coord → Bool
  moveCarriedFails : Bool := false

/-- `Human.location_is_traversable`: a cell is traversable when every
occupant is traversable (vacuously true for an empty cell). -/
def location_is_traversable (env : Env) (p : Coord) : Bool :=
  (env.contents p).all (fun o => o.traversable)

/-- Python `int()` truncation toward zero on a rational. -/
def py_int_trunc (q : ℚ) : Int :=
  if 0 ≤ q then ⌊q⌋ else -⌊-q⌋

/-- `np.random.randint(low, high)` as invoked with float bounds: numpy
truncates both bounds to integers and draws uniformly from
`[int(low), int(high))`; `draw` indexes the support. -/
def np_randint (low high : ℚ) (draw : Nat) : Int :=
  let l := py_int_trunc low
  let h := py_int_trunc high
  l + ((draw : Int) % (h - l))

/-- `np.round` (half to even) followed by `int()`, as in
`int(np.round(self.speed))`. -/
def np_round_int (q : ℚ) : Int :=
  let f := ⌊q⌋
  let r := q - (f : ℚ)
  if r < 1/2 then f
  else if 1/2 < r then f + 1
  else if f % 2 = 0 then f else f + 1

/-- `Human.push_human_agent`: collect the traversable cells of the pushed
agent's 1-radius Moore neighborhood (the `neighborhood` list comes from
the grid service); if any exist, move the agent to a randomly chosen one
and subtract `np.random.randint(MIN_PUSH_DAMAGE, MAX_PUSH_DAMAGE)` from
its health; otherwise do nothing. -/
def push_human_agent (env : Env) (neighborhood : List Coord)
    (posDraw dmgDraw : Nat) (agent : HumanState) : HumanState :=
  let trav := neighborhood.filter (fun p => location_is_traversable env p)
  if h : trav.length ≠ 0 then
    let push_pos := trav.get ⟨posDraw % trav.length, Nat.mod_lt _ (Nat.pos_of_ne_zero h)⟩
    let damage := np_randint MIN_PUSH_DAMAGE MAX_PUSH_DAMAGE dmgDraw
    { agent with pos := some push_pos, health := agent.health - (damage : ℚ) }
  else agent

/-! ## Death and escape bookkeeping (`Human.die`, `Human.step` escape branch,
`model.py` schedule/grid) -/

/-- The world-level state the removal claims are about: the activation
schedule, the grid presence of each agent, per-agent escape flags, the
DeadHuman markers, and the model's fire bookkeeping. -/
structure EvacModel where
  schedule : List Nat
  gridPos : Nat → Option Coord
  escapedFlag : Nat → Bool
  dead_markers : List Coord
  fire_started : Bool
  fire_exits : List Coord

/-- mesa `grid.remove_agent`: the agent leaves the grid (its position
becomes `None`). -/
def grid_remove_agent (w : EvacModel) (a : Nat) : EvacModel :=
  { w with gridPos := fun b => if b = a then none else w.gridPos b }

/-- mesa `schedule.remove`: the agent leaves the activation schedule. -/
def schedule_remove (w : EvacModel) (a : Nat) : EvacModel :=
  { w with schedule := w.schedule.filter (fun b => b ≠ a) }

/-- `Human.die`: remove the agent from the grid and from the schedule and
place a DeadHuman marker at the cell of death (the source reads
`self.pos` first; `die` is only invoked while the agent is on the grid). -/
def die (w : EvacModel) (a : Nat) : EvacModel :=
  match w.gridPos a with
  | some pos =>
    let w1 := schedule_remove (grid_remove_agent w a) a
    { w1 with dead_markers := pos :: w1.dead_markers }
  | none => w

/-- Mark an agent escaped. -/
def set_escaped (w : EvacModel) (a : Nat) : EvacModel :=
  { w with escapedFlag := fun b => if b = a then true else w.escapedFlag b }

/-- The escape branch at the end of `Human.step`: if a fire has started
and the agent stands on a fire-exit cell, any carried agent is marked
escaped and removed from the grid, then the agent itself is marked
escaped and removed from the grid.  The source performs no
`schedule.remove` here. -/
def escape_branch (w : EvacModel) (a : Nat) (carrying : Option Nat) : EvacModel :=
  match w.gridPos a with
  | some pos =>
    if w.fire_started ∧ pos ∈ w.fire_exits then
      let w1 :=
        match carrying with
        | some c => grid_remove_agent (set_escaped w c) c
        | none => w
      grid_remove_agent (set_escaped w1 a) a
    else w
  | none => w

/-- The guard at the top of `Human.step`: the body runs only when the
agent has not escaped and still has a grid position; `body` stands for
the remainder of the method. -/
def human_step (body : EvacModel → Nat → EvacModel) (w : EvacModel) (a : Nat) : EvacModel :=
  if w.escapedFlag a = false ∧ (w.gridPos a).isSome then body w a else w

/-! ## Movement engine (`Human.move_toward_target` and helpers)

The networkx shortest-path service is an oracle
`gp : Finset Coord → Coord → Coord → Option (List Coord)`: removing a
node from a networkx graph yields the induced subgraph on the remaining
nodes, so within one invocation the shortest-path result is a function
of the current node set (plus the fixed tick-start edge set); `none`
encodes the `NodeNotFound` / `NetworkXNoPath` exceptions that the source
catches.  Random draws from numpy are explicit streams. -/

/-- Python list indexing with negative-index wraparound; `none` is an
IndexError. -/
def pyIndex {α : Type} (l : List α) (i : Int) : Option α :=
  if 0 ≤ i then l.get? i.toNat
  else if 0 ≤ (l.length : Int) + i then l.get? ((l.length : Int) + i).toNat
  else none

/-- The prefix of `path` up to and including the first occurrence of
`target` (the `next_path` accumulation loop of `get_next_location`). -/
def take_until (target : Coord) : List Coord → List Coord
  | [] => []
  | c :: rest => if c = target then [c] else c :: take_until target rest

/-- `Human.get_next_location`: take the cell `speed_int` steps along the
path (clamped to the final cell when the path is shorter), together with
the walked sub-path; `none` models the swallowed-and-rethrown exception
branch. -/
def get_next_location (speed : ℚ) (path : List Coord) : Option (Coord × List Coord) :=
  let path_length := path.length
  let speed_int := np_round_int speed
  let idx : Int := if (path_length : Int) ≤ speed_int then (path_length : Int) - 1 else speed_int
  match pyIndex path idx with
  | none => none
  | some next_location => some (next_location, take_until next_location path)

/-- `Human.get_path`: ask the shortest-path service; when the target is
not among the currently visible cells and `include_target` is false,
delete the final path element.  On a service exception: a missing target
node returns an empty path, a missing current position re-raises
(`none`), and a no-path condition returns an empty path. -/
def get_path (gp : Finset Coord → Coord → Coord → Option (List Coord))
    (g : Finset Coord) (pos target : Coord) (include_target : Bool)
    (visible_pos : List Coord) : Option (List Coord) :=
  match gp g pos target with
  | some p =>
    if target ∈ visible_pos then some p
    else if include_target then some p
    else some p.dropLast
  | none =>
    if target ∉ g then some []
    else if pos ∉ g then none
    else some []

/-- Result of an operation that may raise (`exn`) or consume the whole
random-draw stream without finishing (`fuel`). -/
inductive RTRes (α : Type)
  | ok (a : α)
  | exn
  | fuel

/-- The target-selection loop of `Human.get_random_target`: repeatedly
draw an index into the traversable known positions until one is a graph
node different from the agent's position; an empty candidate list raises
(`np.random.choice(0)`). -/
def grtAssign (trav : List Coord) (gnodes : Finset Coord) (selfPos : Option Coord) :
    List Nat → RTRes Coord
  | [] => .fuel
  | d :: ds =>
    if h : trav.length = 0 then .exn
    else
      let t := trav.get ⟨d % trav.length, Nat.mod_lt _ (Nat.pos_of_ne_zero h)⟩
      if t ∈ gnodes ∧ some t ≠ selfPos then .ok t
      else grtAssign trav gnodes selfPos ds

/-- `Human.get_random_target`: collect the traversable known positions
(excluding visited ones when `allow_visited` is false) and, while no
target is planned or the planned target is the agent's own position,
draw random candidates until one lies in the model graph and differs
from the current position; the chosen cell becomes the planned target
with no tracked agent. -/
def get_random_target (model_nodes : Finset Coord) (env : Env) (m : MoveHuman)
    (draws : List Nat) (allow_visited : Bool) : RTRes MoveHuman :=
  let known_pos :=
    if allow_visited then m.self.known_tiles.map Prod.fst
    else (m.self.known_tiles.map Prod.fst).filter (fun p => p ∉ m.self.visited_tiles)
  let trav := known_pos.filter (fun p => location_is_traversable env p)
  if m.plannedTargetPos = none ∨ m.plannedTargetPos = m.self.pos then
    match grtAssign trav model_nodes m.self.pos draws with
    | .ok t => .ok { m with plannedTargetAgent := none, plannedTargetPos := some t }
    | .exn => .exn
    | .fuel => .fuel
  else .ok m

/-- `Human.check_retreat`: scan the visible cells of this tick's sub-path
for a hazard (Fire always; Smoke only if no action is planned).  On a
hazard, compute the mirror-reflected retreat cell; if it is in bounds
and hazard-free it becomes the new planned target, otherwise fall back
to a random target; either way mark the action RETREAT and report true. -/
def check_retreat (model_nodes : Finset Coord) (env : Env) (m : MoveHuman) (pos : Coord)
    (next_path : List Coord) (next_location : Coord) (draws : List Nat) :
    RTRes (Bool × MoveHuman) :=
  let visible_path := (m.self.visible_tiles.map Prod.fst).filter (fun p => p ∈ next_path)
  let visible_contents := (visible_path.map env.contents).flatten
  match visible_contents.find? (fun o =>
      decide ((o.kind = .smoke ∧ m.plannedAction = none) ∨ o.kind = .fire)) with
  | none => .ok (false, m)
  | some _ =>
    let retreat_location : Coord :=
      (pos.1 + (pos.1 - next_location.1), pos.2 + (pos.2 - next_location.2))
    if env.outOfBounds retreat_location = false then
      if (env.contents retreat_location).any (fun o =>
          decide (o.kind = .smoke ∨ o.kind = .fire)) then
        match get_random_target model_nodes env m draws true with
        | .ok m2 => .ok (true, { m2 with plannedAction := some .retreat })
        | .exn => .exn
        | .fuel => .fuel
      else
        .ok (true, { m with plannedTargetAgent := none,
                            plannedTargetPos := some retreat_location,
                            plannedAction := some .retreat })
    else
      match get_random_target model_nodes env m draws true with
      | .ok m2 => .ok (true, { m2 with plannedAction := some .retreat })
      | .exn => .exn
      | .fuel => .fuel

/-- `self.visited_tiles.add(...)` on the Python set. -/
def visited_insert (v : List Coord) (c : Coord) : List Coord :=
  if c ∈ v then v else c :: v

/-- The common effect of stepping onto `next_location`: remember the
previous position, move, and record the cell visited. -/
def moved_update (m : MoveHuman) (pos next : Coord) : MoveHuman :=
  { m with self := { m.self with
      prev_pos := some pos
      pos := some next
      visited_tiles := visited_insert m.self.visited_tiles next } }

/-- `Human.perform_action`: PHYSICAL_SUPPORT begins carrying a
not-yet-carried target (marking it carried, counting the collaboration);
MORALE_SUPPORT attempts a morale boost on the target with the helper's
experience and counts the collaboration regardless of success; the
planned action is cleared in every case.  A missing target agent makes
the attribute access raise (`none`). -/
def perform_action (rand : ℚ) (m : MoveHuman) : Option MoveHuman :=
  match m.plannedAction with
  | some .physical_support =>
    match m.plannedTargetAgent with
    | none => none
    | some ag =>
      if ag.carried = false then
        some { m with
          carryingAgent := some { ag with carried := true }
          self := { m.self with physical_collaboration_count :=
            m.self.physical_collaboration_count + 1 }
          plannedAction := none }
      else some { m with plannedAction := none }
  | some .morale_support =>
    match m.plannedTargetAgent with
    | none => none
    | some ag =>
      let r := attempt_morale_boost m.self.experience rand ag
      some { m with
        plannedTargetAgent := some r.1
        self := { m.self with morale_collaboration_count :=
          m.self.morale_collaboration_count + 1 }
        plannedAction := none }
  | _ => some { m with plannedAction := none }

/-- The state threaded through the movement loop: the agent, the private
working copy of the traversability graph (its node set) and the pruned
edges collected for the post-loop restore. -/
structure LoopState where
  m : MoveHuman
  g : Finset Coord
  pruned : List (Coord × Coord)

/-- How one invocation of the movement engine ends. -/
inductive Outcome
  | noTarget
  | samePos
  | moved
  | movedCarrying
  | arrived
  | dropped
  | retreatSet
  | pushedMoved
  | abort
deriving DecidableEq, Repr

/-- Result of one iteration of the movement loop: the loop exits with an
outcome, repeats on a pruned graph, or (in the model) the random-draw
stream ran out inside `get_random_target`. -/
inductive IterRes
  | exit (st : LoopState) (o : Outcome)
  | loop (st : LoopState)
  | div

open scoped Classical in
/-- One iteration of the `while self.planned_target[1] and not next_location`
loop of `Human.move_toward_target` (lines 929-1026 of `agent.py`),
faithful to the branch structure of the source: path the target
(excluding a non-traversable target from the path), compute the next
step, exit when it equals the current position, consult `check_retreat`,
move when traversable (relocating a live carried agent), perform the
planned action when already standing at the end of the path, push a
blocking non-incapacitated human when the panic condition holds, and
otherwise prune the blocked node from the working graph and retry —
dropping the plan when the blocked node ends the path.  The pushed
occupant's own displacement and damage go through the external grid
service (embedded separately as `push_human_agent`). -/
noncomputable def moveIter (gp : Finset Coord → Coord → Coord → Option (List Coord))
    (edgesOf : Finset Coord → Coord → List (Coord × Coord)) (env : Env)
    (model_nodes : Finset Coord) (draws : List Nat) (performRand : ℚ)
    (st : LoopState) : IterRes :=
  match st.m.plannedTargetPos with
  | none => .exit st .noTarget
  | some target =>
    match st.m.self.pos with
    | none => .exit st .abort
    | some pos =>
      match get_path gp st.g pos target (location_is_traversable env target)
          (st.m.self.visible_tiles.map Prod.fst) with
      | none => .exit st .abort
      | some path =>
        if path.length > 0 then
          match get_next_location st.m.self.speed path with
          | none => .exit st .abort
          | some nl =>
            if nl.1 = pos then .exit st .samePos
            else
              match check_retreat model_nodes env st.m pos nl.2 nl.1 draws with
              | .exn => .exit st .abort
              | .fuel => .div
              | .ok (true, m2) => .exit { st with m := m2 } .retreatSet
              | .ok (false, _) =>
                if location_is_traversable env nl.1 then
                  let m2 := moved_update st.m pos nl.1
                  match st.m.carryingAgent with
                  | none => .exit { st with m := m2 } .moved
                  | some ca =>
                    if get_status ca = some .dead then
                      .exit { st with m := stop_carrying m2 } .moved
                    else if env.moveCarriedFails then .exit st .abort
                    else
                      .exit { st with m := { m2 with
                        carryingAgent := some { ca with pos := some nl.1 } } } .movedCarrying
                else if path.getLast? = some pos then
                  if st.m.plannedAction.isSome then
                    match perform_action performRand st.m with
                    | none => .exit st .abort
                    | some m2 => .exit { st with m := dropPlan m2 } .arrived
                  else .exit { st with m := dropPlan st.m } .arrived
                else
                  if ((env.contents nl.1).any (fun o =>
                        decide (o.kind = .human ∧ o.mobility ≠ .incapacitated)))
                      ∧ ((get_panic_score st.m.self ≥ PANIC_THRESHOLD
                            ∧ st.m.self.mobility = .normal)
                          ∨ st.m.self.mobility = .panic) then
                    .exit { st with m := moved_update st.m pos nl.1 } .pushedMoved
                  else
                    let st2 := { st with
                      pruned := st.pruned ++ edgesOf st.g nl.1
                      g := st.g.erase nl.1 }
                    if path.getLast? = some nl.1 then
                      .exit { st2 with m := dropPlan st2.m } .dropped
                    else .loop st2
        else .exit { st with m := dropPlan st.m } .dropped

/-- Run the movement loop with fuel; `none` means the fuel ran out (or a
random-target loop consumed its whole draw stream). -/
noncomputable def moveLoop (gp : Finset Coord → Coord → Coord → Option (List Coord))
    (edgesOf : Finset Coord → Coord → List (Coord × Coord)) (env : Env)
    (model_nodes : Finset Coord) (draws : List Nat) (performRand : ℚ) :
    Nat → LoopState → Option (LoopState × Outcome)
  | 0, _ => none
  | n + 1, st =>
    match moveIter gp edgesOf env model_nodes draws performRand st with
    | .exit st2 o => some (st2, o)
    | .loop st2 => moveLoop gp edgesOf env model_nodes draws performRand n st2
    | .div => none

/-- `Human.move_toward_target`: refresh the tracked target, validate the
planned action (whose stale-reference branch may raise), then run the
movement loop on a private copy of the model graph.  The fuel
`g0.card + 1` suffices, which is the termination theorem below. -/
noncomputable def move_toward_target (gp : Finset Coord → Coord → Coord → Option (List Coord))
    (edgesOf : Finset Coord → Coord → List (Coord × Coord)) (env : Env)
    (model_nodes : Finset Coord) (draws : List Nat) (performRand : ℚ)
    (g0 : Finset Coord) (m : MoveHuman) : Option (LoopState × Outcome) :=
  let m1 := update_target m
  match (if m1.plannedAction.isSome then update_action m1 else some m1) with
  | none => some ({ m := m1, g := g0, pruned := [] }, .abort)
  | some m2 =>
    moveLoop gp edgesOf env model_nodes draws performRand
      (g0.card + 1) { m := m2, g := g0, pruned := [] }

/-! ## Concrete instances used by counterexamples and witnesses -/

/-- A 5×5 grid: the Moore neighborhood of radius 2 around `(2,2)`,
center included, as the grid service enumerates it. -/
def c3Neighborhood : List Coord :=
  (List.range 5).flatMap (fun x => (List.range 5).map (fun y => ((x : Int), (y : Int))))

/-- Scene A: smoke at `(3,2)` and at `(4,2)`, nothing else; the observer
stands at `(2,2)`. -/
def c3ContentsA : Coord → List Occupant := fun p =>
  if p = (3, 2) ∨ p = (4, 2) then [smokeObject] else []

/-- Scene B: smoke at `(3,2)`; at `(4,2)` a normal human listed before a
smoke occupant. -/
def c3ContentsB : Coord → List Occupant := fun p =>
  if p = (3, 2) then [smokeObject]
  else if p = (4, 2) then [humanObject .normal, smokeObject]
  else []

/-- An agent with unit panic inputs and no prior collaborations. -/
def collabBase : HumanState :=
  { health := 1, nervousness := 1, experience := 1, shock := 0 }

/-- The same agent after one verbal collaboration. -/
def collabMore : HumanState :=
  { collabBase with verbal_collaboration_count := 1 }

/-- A planned PHYSICAL_SUPPORT target that has recovered: alive, not
carried, mobility back to NORMAL. -/
def staleTarget : HumanState :=
  { mobility := .normal, carried := false, health := 1, escaped := false }

/-- A mover holding a PHYSICAL_SUPPORT plan on that recovered target. -/
def staleSupportPlan : MoveHuman :=
  { plannedTargetAgent := some staleTarget
    plannedTargetPos := some (3, 3)
    plannedAction := some .physical_support }

/-- A world with one scheduled agent, number 7, standing on the only
fire-exit cell of a started fire. -/
def escapeWorld : EvacModel :=
  { schedule := [7]
    gridPos := fun b => if b = 7 then some (0, 0) else none
    escapedFlag := fun _ => false
    dead_markers := []
    fire_started := true
    fire_exits := [(0, 0)] }

/-- A path service that always reports a networkx exception. -/
def trivialPathService : Finset Coord → Coord → Coord → Option (List Coord) :=
  fun _ _ _ => none

/-- An edge service reporting no incident edges. -/
def trivialEdgeService : Finset Coord → Coord → List (Coord × Coord) :=
  fun _ _ => []

/-- An empty grid. -/
def emptyEnv : Env :=
  { contents := fun _ => [], outOfBounds := fun _ => false }

/-- A mover standing at the origin with a planned target one cell away. -/
def witnessMover : MoveHuman :=
  { self := { pos := some (0, 0) }, plannedTargetPos := some (1, 0) }

/-! # Theorems -/

/-! ## C1: the panic-score formula -/

/-- Claim C1: for every Human agent with health, nervousness, experience
and shock in their documented ranges, `get_panic_score` returns exactly
the mean of `1/exp(health/nervousness)`, `1/exp(experience/nervousness)`
and the shock value. -/
theorem get_panic_score_spec (s : HumanState)
    (hh0 : MIN_HEALTH ≤ s.health) (hh1 : s.health ≤ MAX_HEALTH)
    (hn0 : 1 ≤ s.nervousness) (hn1 : s.nervousness ≤ 10)
    (he0 : 1 ≤ s.experience) (he1 : s.experience ≤ 10)
    (hs0 : MIN_SHOCK ≤ s.shock) (hs1 : s.shock ≤ MAX_SHOCK) :
    get_panic_score s
      = spec_mean_of_three (1 / Real.exp ((s.health : ℝ) / (s.nervousness : ℝ)))
          (1 / Real.exp ((s.experience : ℝ) / (s.nervousness : ℝ))) (s.shock : ℝ) := rfl

/-- Witness for C1 at a concrete in-range agent. -/
theorem get_panic_score_spec_witness :
    ∃ s : HumanState,
      get_panic_score s
        = spec_mean_of_three (1 / Real.exp ((s.health : ℝ) / (s.nervousness : ℝ)))
            (1 / Real.exp ((s.experience : ℝ) / (s.nervousness : ℝ))) (s.shock : ℝ) :=
  ⟨{ health := 1, nervousness := 1, experience := 1, shock := 0 },
    get_panic_score_spec _ (by decide) (by decide) (by decide) (by decide)
      (by decide) (by decide) (by decide) (by decide)⟩

/-! ## C6: the action-validity check -/

/-- Claim C6 (code bug): `update_action` is claimed to drop a
PHYSICAL_SUPPORT plan whose target is no longer incapacitated, already
carried or not alive.  In the source the PHYSICAL_SUPPORT branch is
chained as an `elif` under `if planned_agent:`, so with a live,
recovered (NORMAL) target the plan is left fully intact, and with no
target agent the branch dereferences `None` (an AttributeError, the
`none` result).  The source's own comment on that branch states the
dropping intent. -/
theorem update_action_keeps_stale_physical_support :
    staleSupportPlan.plannedAction = some .physical_support
    ∧ (staleSupportPlan.plannedTargetAgent.map (fun a => a.mobility)) = some .normal
    ∧ (staleSupportPlan.plannedTargetAgent.map (fun a => get_status a)) = some (some .alive)
    ∧ update_action staleSupportPlan = some staleSupportPlan
    ∧ update_action { staleSupportPlan with plannedTargetAgent := none } = none := by
  decide

/-! ## C7: push damage -/

/-- Claim C7 (code bug): a push is claimed to inflict a random positive
damage between `MIN_PUSH_DAMAGE` (0.01) and `MAX_PUSH_DAMAGE` (1.0).
`np.random.randint(0.01, 1.0)` truncates its float bounds to the
integers 0 and 1, so the drawn damage is always exactly 0 and the pushed
agent's health never changes. -/
theorem push_damage_is_zero (env : Env) (neighborhood : List Coord)
    (posDraw dmgDraw : Nat) (agent : HumanState) :
    np_randint MIN_PUSH_DAMAGE MAX_PUSH_DAMAGE dmgDraw = 0
    ∧ (push_human_agent env neighborhood posDraw dmgDraw agent).health = agent.health := by
  have h1 : py_int_trunc MIN_PUSH_DAMAGE = 0 := by
    unfold py_int_trunc MIN_PUSH_DAMAGE
    norm_num
  have h2 : py_int_trunc MAX_PUSH_DAMAGE = 1 := by
    unfold py_int_trunc MAX_PUSH_DAMAGE
    norm_num
  have hz : np_randint MIN_PUSH_DAMAGE MAX_PUSH_DAMAGE dmgDraw = 0 := by
    unfold np_randint
    rw [h1, h2]
    simp [Int.emod_one]
  refine ⟨hz, ?_⟩
  unfold push_human_agent
  dsimp only
  split
  · simp [hz]
  · rfl

/-! ## C10: learning stops at MAX_KNOWLEDGE -/

/-- Helper: at or above `MAX_KNOWLEDGE`, one call of `learn_environment`
is the identity. -/
theorem learn_environment_of_ge (total_tiles : Nat) (s : HumanState)
    (h : MAX_KNOWLEDGE ≤ s.knowledge) :
    learn_environment total_tiles s = s := by
  unfold learn_environment
  rw [if_neg (not_lt.mpr h)]

/-- Helper: once knowledge is at least `MAX_KNOWLEDGE`, any sequence of
views leaves `known_tiles` and `knowledge` untouched. -/
theorem applyLearn_frozen (total_tiles : Nat) :
    ∀ (vs : List (List (Coord × List Occupant))) (s : HumanState),
      MAX_KNOWLEDGE ≤ s.knowledge →
      (applyLearn total_tiles s vs).known_tiles = s.known_tiles
      ∧ (applyLearn total_tiles s vs).knowledge = s.knowledge := by
  intro vs
  induction vs with
  | nil => intro s _; exact ⟨rfl, rfl⟩
  | cons v vs ih =>
    intro s h
    have hle : learn_environment total_tiles { s with visible_tiles := v }
        = { s with visible_tiles := v } :=
      learn_environment_of_ge total_tiles { s with visible_tiles := v } h
    have h2 := ih { s with visible_tiles := v } h
    constructor
    · show (applyLearn total_tiles
          (learn_environment total_tiles { s with visible_tiles := v }) vs).known_tiles
          = s.known_tiles
      rw [hle]
      exact h2.1
    · show (applyLearn total_tiles
          (learn_environment total_tiles { s with visible_tiles := v }) vs).knowledge
          = s.knowledge
      rw [hle]
      exact h2.2

/-- Claim C10: once a Human's knowledge has reached `MAX_KNOWLEDGE` (1),
`learn_environment` leaves both `known_tiles` and `knowledge` completely
unchanged on every subsequent call — the whole merge of visible tiles is
skipped, so occupants that newly appear in any later view are never
recorded. -/
theorem learn_environment_frozen_at_max_knowledge (total_tiles : Nat) (s : HumanState)
    (h : MAX_KNOWLEDGE ≤ s.knowledge) :
    learn_environment total_tiles s = s
    ∧ ∀ vs : List (List (Coord × List Occupant)),
        (applyLearn total_tiles s vs).known_tiles = s.known_tiles
        ∧ (applyLearn total_tiles s vs).knowledge = s.knowledge := by
  constructor
  · exact learn_environment_of_ge total_tiles s h
  · intro vs
    exact applyLearn_frozen total_tiles vs s h

/-- Witness for C10 at a concrete fully-knowledgeable agent. -/
theorem learn_environment_frozen_witness :
    MAX_KNOWLEDGE ≤ ({ knowledge := 1 } : HumanState).knowledge
    ∧ (learn_environment 25 { knowledge := 1 } = ({ knowledge := 1 } : HumanState)
        ∧ ∀ vs : List (List (Coord × List Occupant)),
            (applyLearn 25 ({ knowledge := 1 } : HumanState) vs).known_tiles
              = ({ knowledge := 1 } : HumanState).known_tiles
            ∧ (applyLearn 25 ({ knowledge := 1 } : HumanState) vs).knowledge
              = ({ knowledge := 1 } : HumanState).knowledge) :=
  ⟨by decide, learn_environment_frozen_at_max_knowledge 25 _ (by decide)⟩

/-! ## C3: smoke occlusion in the visibility engine -/

/-- Helper: everything `processContents` reports visible occupies the
cell. -/
theorem processContents_sub : ∀ (L : List Occupant) (k : Nat) (o : Occupant),
    o ∈ (processContents L k).2.2 → o ∈ L := by
  intro L
  induction L with
  | nil =>
    intro k o h
    exact absurd h (by simp [processContents])
  | cons a rest ih =>
    intro k o h
    unfold processContents at h
    by_cases h1 : a.kind = .sight
    · rw [if_pos h1] at h
      exact List.mem_cons_of_mem a (ih k o h)
    · rw [if_neg h1] at h
      by_cases h2 : a.kind = .wall
      · rw [if_pos h2] at h
        simp at h
      · rw [if_neg h2] at h
        dsimp only at h
        by_cases h3 : a.visibility ≠ 0
            ∧ a.visibility > ((if a.kind = .smoke then k + 1 else k : Nat) : Int)
        · rw [if_pos h3] at h
          rcases List.mem_cons.mp h with rfl | hmem
          · exact List.mem_cons_self _ _
          · exact List.mem_cons_of_mem a (ih _ o hmem)
        · rw [if_neg h3] at h
          exact List.mem_cons_of_mem a (ih _ o h)

/-- Helper: on wall-free contents the ray is not blocked and the smoke
counter advances by exactly the number of Smoke occupants. -/
theorem processContents_nowall : ∀ (L : List Occupant) (k : Nat),
    (∀ o ∈ L, o.kind ≠ .wall) →
    (processContents L k).1 = false ∧ (processContents L k).2.1 = k + smoke_in L := by
  intro L
  induction L with
  | nil =>
    intro k _
    exact ⟨rfl, by simp [smoke_in, processContents]⟩
  | cons a rest ih =>
    intro k hw
    have hrest : ∀ o ∈ rest, o.kind ≠ .wall :=
      fun o ho => hw o (List.mem_cons_of_mem a ho)
    have ha := hw a (List.mem_cons_self a rest)
    unfold processContents
    by_cases h1 : a.kind = .sight
    · rw [if_pos h1]
      have hs : smoke_in (a :: rest) = smoke_in rest := by
        simp [smoke_in, List.countP_cons, h1]
      rw [hs]
      exact ih k hrest
    · rw [if_neg h1, if_neg ha]
      dsimp only
      have hk1 := ih (if a.kind = .smoke then k + 1 else k) hrest
      have hcount : (if a.kind = .smoke then k + 1 else k) + smoke_in rest
          = k + smoke_in (a :: rest) := by
        by_cases h : a.kind = .smoke <;>
          simp [smoke_in, List.countP_cons, h] <;> omega
      by_cases h3 : a.visibility ≠ 0
          ∧ a.visibility > ((if a.kind = .smoke then k + 1 else k : Nat) : Int)
      · rw [if_pos h3]
        refine ⟨hk1.1, ?_⟩
        show (processContents rest (if a.kind = .smoke then k + 1 else k)).2.1
            = k + smoke_in (a :: rest)
        rw [hk1.2]
        exact hcount
      · rw [if_neg h3]
        refine ⟨hk1.1, ?_⟩
        rw [hk1.2]
        exact hcount

/-- Helper: an occupant of a wall-free cell is reported visible exactly
when its visibility score is nonzero and exceeds the entry counter plus
the Smoke occupants listed before it, counting itself when it is a Smoke
occupant. -/
theorem processContents_mem_iff (obj : Occupant) (B : List Occupant)
    (hobjw : obj.kind ≠ .wall) (hobjs : obj.kind ≠ .sight) (hnB : obj ∉ B) :
    ∀ (A : List Occupant) (k : Nat), (∀ o ∈ A, o.kind ≠ .wall) → obj ∉ A →
      (obj ∈ (processContents (A ++ obj :: B) k).2.2
        ↔ obj.visibility ≠ 0
          ∧ obj.visibility > ((k + smoke_in A + (if obj.kind = .smoke then 1 else 0) : Nat) : Int)) := by
  intro A
  induction A with
  | nil =>
    intro k _ _
    show obj ∈ (processContents (obj :: B) k).2.2 ↔ _
    unfold processContents
    rw [if_neg hobjs, if_neg hobjw]
    dsimp only
    have hk1 : (if obj.kind = .smoke then k + 1 else k : Nat)
        = k + smoke_in ([] : List Occupant) + (if obj.kind = .smoke then 1 else 0) := by
      by_cases h : obj.kind = .smoke <;> simp [smoke_in, h]
    rw [hk1]
    by_cases h3 : obj.visibility ≠ 0
        ∧ obj.visibility > ((k + smoke_in ([] : List Occupant)
            + (if obj.kind = .smoke then 1 else 0) : Nat) : Int)
    · rw [if_pos h3]
      constructor
      · intro _
        exact h3
      · intro _
        exact List.mem_cons_self _ _
    · rw [if_neg h3]
      constructor
      · intro h
        exact absurd (processContents_sub B _ obj h) hnB
      · intro hcond
        exact absurd hcond h3
  | cons a A' ih =>
    intro k hwA hnA
    have ha : a.kind ≠ .wall := hwA a (List.mem_cons_self _ _)
    have hA' : ∀ o ∈ A', o.kind ≠ .wall := fun o ho => hwA o (List.mem_cons_of_mem a ho)
    have hna : obj ≠ a := fun h => hnA (h ▸ List.mem_cons_self a A')
    have hnA' : obj ∉ A' := fun h => hnA (List.mem_cons_of_mem a h)
    show obj ∈ (processContents (a :: (A' ++ obj :: B)) k).2.2 ↔ _
    unfold processContents
    by_cases h1 : a.kind = .sight
    · rw [if_pos h1]
      have hs : smoke_in (a :: A') = smoke_in A' := by
        simp [smoke_in, List.countP_cons, h1]
      rw [hs]
      exact ih k hA' hnA'
    · rw [if_neg h1, if_neg ha]
      dsimp only
      have hbound : ((if a.kind = .smoke then k + 1 else k) + smoke_in A'
            + (if obj.kind = .smoke then 1 else 0) : Nat)
          = (k + smoke_in (a :: A') + (if obj.kind = .smoke then 1 else 0) : Nat) := by
        by_cases h : a.kind = .smoke <;>
          simp [smoke_in, List.countP_cons, h] <;> omega
      have hiff := ih (if a.kind = .smoke then k + 1 else k) hA' hnA'
      rw [hbound] at hiff
      by_cases h3 : a.visibility ≠ 0
          ∧ a.visibility > ((if a.kind = .smoke then k + 1 else k : Nat) : Int)
      · rw [if_pos h3]
        constructor
        · intro h
          rcases List.mem_cons.mp h with heq | hmem
          · exact absurd heq hna
          · exact hiff.mp hmem
        · intro hcond
          exact List.mem_cons_of_mem a (hiff.mpr hcond)
      · rw [if_neg h3]
        exact hiff

/-- Helper: along a wall-free prefix the ray records every cell in
order, and at the cell after the prefix the counter has accumulated the
prefix's Smoke occupants. -/
theorem processRay_get (contentsAt : Coord → List Occupant) :
    ∀ (pre rest : List Coord) (c : Coord) (k : Nat) (ch : Finset Coord),
      (∀ p ∈ pre, ∀ o ∈ contentsAt p, o.kind ≠ .wall) →
      (∀ o ∈ contentsAt c, o.kind ≠ .wall) →
      (processRay contentsAt (pre ++ c :: rest) k ch).1.get? pre.length
        = some (c, (processContents (contentsAt c)
            (k + (pre.map fun p => smoke_in (contentsAt p)).sum)).2.2) := by
  intro pre
  induction pre with
  | nil =>
    intro rest c k ch _ hcw
    have hb := processContents_nowall (contentsAt c) k hcw
    show (processRay contentsAt (c :: rest) k ch).1.get? 0 = _
    unfold processRay
    dsimp only
    split
    case isTrue h =>
      rw [hb.1] at h
      exact absurd h (by simp)
    case isFalse =>
      rw [List.get?_cons_zero]
      simp
  | cons p pre' ih =>
    intro rest c k ch hpre hcw
    have hp : ∀ o ∈ contentsAt p, o.kind ≠ .wall :=
      hpre p (List.mem_cons_self _ _)
    have hpre' : ∀ q ∈ pre', ∀ o ∈ contentsAt q, o.kind ≠ .wall :=
      fun q hq => hpre q (List.mem_cons_of_mem p hq)
    have hb := processContents_nowall (contentsAt p) k hp
    show (processRay contentsAt (p :: (pre' ++ c :: rest)) k ch).1.get? (pre'.length + 1) = _
    unfold processRay
    dsimp only
    split
    case isTrue h =>
      rw [hb.1] at h
      exact absurd h (by simp)
    case isFalse =>
      rw [List.get?_cons_succ, hb.2,
        ih rest c (k + smoke_in (contentsAt p)) (insert p ch) hpre' hcw]
      have harith : k + smoke_in (contentsAt p)
            + ((pre'.map fun q => smoke_in (contentsAt q)).sum)
          = k + (((p :: pre').map fun q => smoke_in (contentsAt q)).sum) := by
        simp only [List.map_cons, List.sum_cons]
        omega
      rw [harith]

/-- Amended C3: along the ray that resolves a cell, an occupant of that
cell is recorded visible iff its visibility score is nonzero and
strictly greater than the occlusion counter at the moment it is
examined: the ray's entry counter plus the Smoke occupants of the
wall-free cells crossed before, plus the Smoke occupants listed before
it within its own cell, counting the occupant itself when it is Smoke.
In particular a Smoke occupant's own cell contributes to its occlusion,
and own-cell Smoke listed after an occupant does not. -/
theorem visibility_occlusion_amended (contentsAt : Coord → List Occupant)
    (k0 : Nat) (pre rest : List Coord) (c : Coord) (A B : List Occupant)
    (obj : Occupant) (ch : Finset Coord)
    (hc : contentsAt c = A ++ obj :: B)
    (hpre : ∀ p ∈ pre, ∀ o ∈ contentsAt p, o.kind ≠ .wall)
    (hA : ∀ o ∈ A, o.kind ≠ .wall) (hB : ∀ o ∈ B, o.kind ≠ .wall)
    (hobjw : obj.kind ≠ .wall) (hobjs : obj.kind ≠ .sight)
    (hnA : obj ∉ A) (hnB : obj ∉ B) :
    ∃ vis, (processRay contentsAt (pre ++ c :: rest) k0 ch).1.get? pre.length
        = some (c, vis)
      ∧ (obj ∈ vis ↔ obj.visibility ≠ 0
          ∧ obj.visibility > ((k0 + (pre.map fun p => smoke_in (contentsAt p)).sum
              + smoke_in A + (if obj.kind = .smoke then 1 else 0) : Nat) : Int)) := by
  have hcw : ∀ o ∈ contentsAt c, o.kind ≠ .wall := by
    rw [hc]
    intro o ho
    rcases List.mem_append.mp ho with h | h
    · exact hA o h
    · rcases List.mem_cons.mp h with rfl | h
      · exact hobjw
      · exact hB o h
  refine ⟨_, processRay_get contentsAt pre rest c k0 ch hpre hcw, ?_⟩
  rw [show contentsAt c = A ++ obj :: B from hc]
  exact processContents_mem_iff obj B hobjw hobjs hnB A _ hA hnA

/-- Witness for the amended C3: a Smoke occupant behind one smoke cell,
examined with counter 2 because it increments its own counter first. -/
theorem visibility_occlusion_amended_witness :
    ∃ vis, (processRay c3ContentsA ([((3 : Int), (2 : Int))]
          ++ ((4 : Int), (2 : Int)) :: []) 0 ∅).1.get? 1 = some (((4 : Int), (2 : Int)), vis)
      ∧ (smokeObject ∈ vis ↔ smokeObject.visibility ≠ 0
          ∧ smokeObject.visibility
              > ((0 + ([((3 : Int), (2 : Int))].map fun p => smoke_in (c3ContentsA p)).sum
                  + smoke_in [] + (if smokeObject.kind = .smoke then 1 else 0) : Nat) : Int)) :=
  visibility_occlusion_amended c3ContentsA 0 [(3, 2)] [] (4, 2) [] [] smokeObject ∅
    (by decide) (by decide) (by decide) (by decide) (by decide) (by decide)
    (by decide) (by decide)

/-- Counterexample to claim C3 as stated ("visible iff the visibility
score strictly exceeds the number of Smoke-bearing cells the ray passes
through to reach the object").  Scene A: a Smoke occupant at (4,2)
behind exactly one smoke-bearing cell on its un-blocked connecting ray,
score 2 > 1, yet it is never among the visible occupants of its cell
(its own cell's increment applies before its own test).  Scene B: a
Human at (4,2) listed before a Smoke occupant of the same cell, with two
smoke-bearing cells on the ray counting its own, score 2 = 2, yet it IS
recorded visible (its own cell's Smoke is examined after it). -/
theorem visibility_occlusion_counterexample :
    get_line (2, 2) (4, 2) = [(2, 2), (3, 2), (4, 2)]
    ∧ (∀ p ∈ get_line (2, 2) (4, 2), ∀ o ∈ c3ContentsA p, o.kind ≠ .wall)
    ∧ ((get_line (2, 2) (4, 2)).dropLast.countP
        (fun t => (c3ContentsA t).any (fun o => o.kind = .smoke)) = 1)
    ∧ smokeObject.visibility = 2
    ∧ (∀ pr ∈ get_visible_tiles c3ContentsA c3Neighborhood (2, 2),
        pr.1 = (4, 2) → smokeObject ∉ pr.2)
    ∧ (∀ p ∈ get_line (2, 2) (4, 2), ∀ o ∈ c3ContentsB p, o.kind ≠ .wall)
    ∧ ((get_line (2, 2) (4, 2)).countP
        (fun t => (c3ContentsB t).any (fun o => o.kind = .smoke)) = 2)
    ∧ (humanObject .normal).visibility = 2
    ∧ (∃ pr ∈ get_visible_tiles c3ContentsB c3Neighborhood (2, 2),
        pr.1 = (4, 2) ∧ humanObject .normal ∈ pr.2) := by
  decide

/-! ## C4: symmetry and endpoint inclusion of get_line -/

/-- Helper: the rasterization loop always produces a nonempty list. -/
theorem bresLoop_ne_nil (ady dx sy : Int) (st : Bool) (n : Nat) (x y err : Int) :
    bresLoop ady dx sy st (n + 1) x y err ≠ [] := by
  unfold bresLoop
  dsimp only
  split <;> simp

/-- Helper: the loop emits its starting coordinate first. -/
theorem bresLoop_head (ady dx sy : Int) (st : Bool) (n : Nat) (x y err : Int) :
    (bresLoop ady dx sy st (n + 1) x y err).head? = some (bresEmit st x y) := by
  unfold bresLoop
  dsimp only
  split <;> rfl

/-- Helper: the last element of a cons is the last element of a nonempty
tail. -/
theorem getLast?_cons_of_tail_ne_nil {α : Type} {l : List α} (a : α) (h : l ≠ []) :
    (a :: l).getLast? = l.getLast? := by
  cases l with
  | nil => exact absurd rfl h
  | cons b t => exact List.getLast?_cons_cons

/-- Helper: a list contains the element its `getLast?` reports. -/
theorem mem_of_getLast?_eq {α : Type} {l : List α} {x : α}
    (h : l.getLast? = some x) : x ∈ l := by
  rcases List.mem_getLast?_eq_getLast (Option.mem_def.mpr h) with ⟨hne, hx⟩
  rw [hx]
  exact List.getLast_mem hne

/-- Helper: the last coordinate the loop emits, by the invariant
`0 ≤ err < dx` on the error margin: after `n` further iterations the
emitted `y` has advanced by `sy` times the number of wrap-arounds. -/
theorem bresLoop_getLast (ady dx sy : Int) (st : Bool)
    (hady0 : 0 ≤ ady) (hadydx : ady ≤ dx) :
    ∀ (n : Nat) (x y err : Int), 0 ≤ err → err < dx →
      (bresLoop ady dx sy st (n + 1) x y err).getLast?
        = some (bresEmit st (x + n) (y - sy * ((err - n * ady) / dx))) := by
  intro n
  induction n with
  | zero =>
    intro x y err h0 h1
    have hr : bresEmit st (x + ((0 : Nat) : Int))
        (y - sy * ((err - ((0 : Nat) : Int) * ady) / dx)) = bresEmit st x y := by
      rw [Nat.cast_zero, zero_mul, sub_zero, Int.ediv_eq_zero_of_lt h0 h1,
        mul_zero, sub_zero, add_zero]
    rw [hr]
    unfold bresLoop
    dsimp only
    split <;> rfl
  | succ n ih =>
    intro x y err h0 h1
    have hdxne : dx ≠ 0 := by omega
    show (bresLoop ady dx sy st (n + 1 + 1) x y err).getLast? = _
    unfold bresLoop
    dsimp only
    split
    · -- the error margin wrapped: step y
      have hb0 : 0 ≤ err - ady + dx := by omega
      have hb1 : err - ady + dx < dx := by omega
      rw [getLast?_cons_of_tail_ne_nil _ (bresLoop_ne_nil ady dx sy st n _ _ _),
        ih (x + 1) (y + sy) (err - ady + dx) hb0 hb1]
      have hx : x + 1 + (n : Int) = x + ((n + 1 : Nat) : Int) := by push_cast; ring
      have hdiv : (err - ady + dx - (n : Int) * ady) / dx
          = (err - ((n + 1 : Nat) : Int) * ady) / dx + 1 := by
        have hrw : err - ady + dx - (n : Int) * ady
            = err - ((n + 1 : Nat) : Int) * ady + 1 * dx := by push_cast; ring
        rw [hrw, Int.add_mul_ediv_right _ _ hdxne]
      have hy : y + sy - sy * ((err - ady + dx - (n : Int) * ady) / dx)
          = y - sy * ((err - ((n + 1 : Nat) : Int) * ady) / dx) := by
        rw [hdiv]; ring
      rw [hx, hy]
    · -- no wrap
      have hb0 : 0 ≤ err - ady := by omega
      have hb1 : err - ady < dx := by omega
      rw [getLast?_cons_of_tail_ne_nil _ (bresLoop_ne_nil ady dx sy st n _ _ _),
        ih (x + 1) y (err - ady) hb0 hb1]
      have hx : x + 1 + (n : Int) = x + ((n + 1 : Nat) : Int) := by push_cast; ring
      have hdiv : err - ady - (n : Int) * ady = err - ((n + 1 : Nat) : Int) * ady := by
        push_cast; ring
      rw [hx, hdiv]

/-- Helper: rasterizing from a point to itself yields that point. -/
theorem bresRun_self (a : Coord) (st : Bool) :
    bresRun a a st = [bresEmit st a.1 a.2] := by
  unfold bresRun
  dsimp only
  rw [sub_self, sub_self, abs_zero, Int.zero_ediv, Int.toNat_zero]
  unfold bresLoop
  dsimp only
  norm_num
  rfl

/-- Helper: the first coordinate of the rasterized canonical segment. -/
theorem bresRun_head (a b : Coord) (st : Bool) :
    (bresRun a b st).head? = some (bresEmit st a.1 a.2) := by
  unfold bresRun
  dsimp only
  exact bresLoop_head _ _ _ _ _ _ _ _

/-- Helper: the last coordinate of the rasterized canonical segment is
its endpoint, when the segment is canonical (`a.1 ≤ b.1`, not steep). -/
theorem bresRun_getLast (a b : Coord) (st : Bool) (h1 : a.1 ≤ b.1)
    (h2 : |b.2 - a.2| ≤ b.1 - a.1) :
    (bresRun a b st).getLast? = some (bresEmit st b.1 b.2) := by
  by_cases hdx : b.1 - a.1 = 0
  · have hdy : |b.2 - a.2| ≤ 0 := by rw [← hdx]; exact h2
    have hb2 : b.2 = a.2 := by
      have := abs_nonneg (b.2 - a.2)
      have h0 : |b.2 - a.2| = 0 := le_antisymm hdy this
      have := abs_eq_zero.mp h0
      omega
    have hb1 : b.1 = a.1 := by omega
    have hab : b = a := Prod.ext hb1 hb2
    rw [hab, bresRun_self]
    rfl
  · have hdx1 : 1 ≤ b.1 - a.1 := by omega
    have h0 : 0 ≤ (b.1 - a.1) / 2 := by omega
    have h1' : (b.1 - a.1) / 2 < b.1 - a.1 := by omega
    unfold bresRun
    dsimp only
    rw [bresLoop_getLast |b.2 - a.2| (b.1 - a.1) (if a.2 < b.2 then 1 else -1) st
      (abs_nonneg _) h2 ((b.1 - a.1).toNat) a.1 a.2 ((b.1 - a.1) / 2) h0 h1']
    have hcast : (((b.1 - a.1).toNat : Nat) : Int) = b.1 - a.1 :=
      Int.toNat_of_nonneg (by omega)
    rw [hcast]
    have hdiv : ((b.1 - a.1) / 2 - (b.1 - a.1) * |b.2 - a.2|) / (b.1 - a.1)
        = -|b.2 - a.2| := by
      have hrw : (b.1 - a.1) / 2 - (b.1 - a.1) * |b.2 - a.2|
          = (b.1 - a.1) / 2 + -|b.2 - a.2| * (b.1 - a.1) := by ring
      rw [hrw, Int.add_mul_ediv_right _ _ (by omega : b.1 - a.1 ≠ 0),
        Int.ediv_eq_zero_of_lt h0 h1', zero_add]
    rw [hdiv]
    have hx : a.1 + (b.1 - a.1) = b.1 := by ring
    have hy : a.2 - (if a.2 < b.2 then (1 : Int) else -1) * -|b.2 - a.2| = b.2 := by
      by_cases hlt : a.2 < b.2
      · rw [if_pos hlt, abs_of_nonneg (by omega : (0 : Int) ≤ b.2 - a.2)]
        ring
      · rw [if_neg hlt, abs_of_nonpos (by omega : b.2 - a.2 ≤ 0)]
        ring
    rw [hx, hy]

/-- Helper: the canonical rasterized segment contains both endpoints. -/
theorem bresRun_mem_ends (a b : Coord) (st : Bool) (h1 : a.1 ≤ b.1)
    (h2 : |b.2 - a.2| ≤ b.1 - a.1) :
    bresEmit st a.1 a.2 ∈ bresRun a b st ∧ bresEmit st b.1 b.2 ∈ bresRun a b st := by
  constructor
  · apply List.mem_of_mem_head?
    rw [bresRun_head]
    simp
  · exact mem_of_getLast?_eq (bresRun_getLast a b st h1 h2)

/-- Helper: `get_line` reverses when its endpoints are exchanged. -/
theorem get_line_rev (s e : Coord) : get_line e s = (get_line s e).reverse := by
  unfold get_line
  rw [show |s.2 - e.2| = |e.2 - s.2| from abs_sub_comm _ _,
    show |s.1 - e.1| = |e.1 - s.1| from abs_sub_comm _ _]
  by_cases hsteep : |e.2 - s.2| > |e.1 - s.1|
  · rw [if_pos hsteep, if_pos hsteep]
    rcases lt_trichotomy s.2 e.2 with hlt | heq | hgt
    · rw [if_pos (by omega : e.2 > s.2), if_neg (by omega : ¬s.2 > e.2)]
    · exfalso
      rw [heq, sub_self, abs_zero] at hsteep
      have := abs_nonneg (e.1 - s.1)
      omega
    · rw [if_neg (by omega : ¬e.2 > s.2), if_pos (by omega : s.2 > e.2),
        List.reverse_reverse]
  · rw [if_neg hsteep, if_neg hsteep]
    rcases lt_trichotomy s.1 e.1 with hlt | heq | hgt
    · rw [if_pos (by omega : e.1 > s.1), if_neg (by omega : ¬s.1 > e.1)]
    · have hs2 : e.2 = s.2 := by
        rw [not_lt] at hsteep
        rw [heq, sub_self, abs_zero] at hsteep
        have := abs_nonneg (e.2 - s.2)
        have h0 : |e.2 - s.2| = 0 := by omega
        have := abs_eq_zero.mp h0
        omega
      have hes : e = s := Prod.ext (by omega) hs2
      rw [if_neg (by omega : ¬e.1 > s.1), if_neg (by omega : ¬s.1 > e.1), hes,
        bresRun_self]
      rfl
    · rw [if_neg (by omega : ¬e.1 > s.1), if_pos (by omega : s.1 > e.1),
        List.reverse_reverse]

/-- Helper: `get_line` contains both of its endpoints. -/
theorem get_line_mem (s e : Coord) : s ∈ get_line s e ∧ e ∈ get_line s e := by
  unfold get_line
  by_cases hsteep : |e.2 - s.2| > |e.1 - s.1|
  · rw [if_pos hsteep]
    by_cases hgt : s.2 > e.2
    · rw [if_pos hgt]
      have h1 : (e.2, e.1).1 ≤ (s.2, s.1).1 := by dsimp only; omega
      have h2 : |(s.2, s.1).2 - (e.2, e.1).2| ≤ (s.2, s.1).1 - (e.2, e.1).1 := by
        dsimp only
        rw [show |s.1 - e.1| = |e.1 - s.1| from abs_sub_comm _ _]
        rw [show |e.2 - s.2| = |s.2 - e.2| from abs_sub_comm _ _] at hsteep
        rw [show |s.2 - e.2| = s.2 - e.2 from abs_of_nonneg (by omega)] at hsteep
        omega
      have hm := bresRun_mem_ends (e.2, e.1) (s.2, s.1) true h1 h2
      exact ⟨List.mem_reverse.mpr hm.2, List.mem_reverse.mpr hm.1⟩
    · rw [if_neg hgt]
      have h1 : (s.2, s.1).1 ≤ (e.2, e.1).1 := by dsimp only; omega
      have h2 : |(e.2, e.1).2 - (s.2, s.1).2| ≤ (e.2, e.1).1 - (s.2, s.1).1 := by
        dsimp only
        rw [show |e.2 - s.2| = e.2 - s.2 from abs_of_nonneg (by omega)] at hsteep
        omega
      have hm := bresRun_mem_ends (s.2, s.1) (e.2, e.1) true h1 h2
      exact ⟨hm.1, hm.2⟩
  · rw [if_neg hsteep]
    by_cases hgt : s.1 > e.1
    · rw [if_pos hgt]
      have h1 : e.1 ≤ s.1 := by omega
      have h2 : |s.2 - e.2| ≤ s.1 - e.1 := by
        rw [not_lt] at hsteep
        rw [show |s.2 - e.2| = |e.2 - s.2| from abs_sub_comm _ _]
        rw [show |e.1 - s.1| = |s.1 - e.1| from abs_sub_comm _ _,
          show |s.1 - e.1| = s.1 - e.1 from abs_of_nonneg (by omega)] at hsteep
        omega
      have hm := bresRun_mem_ends e s false h1 h2
      exact ⟨List.mem_reverse.mpr hm.2, List.mem_reverse.mpr hm.1⟩
    · rw [if_neg hgt]
      have h1 : s.1 ≤ e.1 := by omega
      have h2 : |e.2 - s.2| ≤ e.1 - s.1 := by
        rw [not_lt] at hsteep
        rw [show |e.1 - s.1| = e.1 - s.1 from abs_of_nonneg (by omega)] at hsteep
        omega
      have hm := bresRun_mem_ends s e false h1 h2
      exact ⟨hm.1, hm.2⟩

/-- Claim C4: for all integer coordinate pairs A and B, the cell-set of
`get_line(A, B)` equals the cell-set of `get_line(B, A)`, and both lists
contain A and B. -/
theorem get_line_symmetric (A B : Coord) :
    (get_line A B).toFinset = (get_line B A).toFinset
    ∧ A ∈ get_line A B ∧ B ∈ get_line A B
    ∧ A ∈ get_line B A ∧ B ∈ get_line B A := by
  have hrev := get_line_rev A B
  have hm := get_line_mem A B
  have hm2 := get_line_mem B A
  exact ⟨by rw [hrev, List.toFinset_reverse], hm.1, hm.2, hm2.2, hm2.1⟩

/-! ## C2: termination of the movement loop -/

/-- Helper: a Python index that resolves yields an element of the list. -/
theorem pyIndex_mem {α : Type} {l : List α} {i : Int} {x : α}
    (h : pyIndex l i = some x) : x ∈ l := by
  unfold pyIndex at h
  split at h
  · exact List.get?_mem h
  · split at h
    · exact List.get?_mem h
    · exact Option.noConfusion h

/-- Helper: the next location computed from a path lies on the path. -/
theorem get_next_location_mem {sp : ℚ} {path : List Coord} {nl : Coord × List Coord}
    (h : get_next_location sp path = some nl) : nl.1 ∈ path := by
  unfold get_next_location at h
  dsimp only at h
  split at h
  · exact Option.noConfusion h
  · rename_i x heq
    injection h with hh
    rw [← hh]
    exact pyIndex_mem heq

/-- Helper: the next location computed from the one-cell path `[a]` is `a`. -/
theorem get_next_location_singleton {sp : ℚ} {a : Coord} {nl : Coord × List Coord}
    (h : get_next_location sp [a] = some nl) : nl.1 = a := by
  have := get_next_location_mem h
  simpa using this

/-- Helper: every cell of a path obtained from `get_path` is a node of
the working graph, given that the path service only returns graph
nodes (true of `networkx.shortest_path`). -/
theorem get_path_mem {gp : Finset Coord → Coord → Coord → Option (List Coord)}
    (Hmem : ∀ g a b p, gp g a b = some p → ∀ c ∈ p, c ∈ g)
    {g : Finset Coord} {pos T : Coord} {it : Bool} {vis : List Coord} {path : List Coord}
    (h : get_path gp g pos T it vis = some path) : ∀ c ∈ path, c ∈ g := by
  unfold get_path at h
  split at h
  · rename_i p heq
    have hmem := Hmem g pos T p heq
    split at h
    · injection h with hh
      intro c hc
      rw [← hh] at hc
      exact hmem c hc
    · split at h
      · injection h with hh
        intro c hc
        rw [← hh] at hc
        exact hmem c hc
      · injection h with hh
        intro c hc
        rw [← hh] at hc
        exact hmem c ((List.dropLast_sublist p).subset hc)
  · split at h
    · injection h with hh
      intro c hc
      rw [← hh] at hc
      simp at hc
    · split at h
      · exact Option.noConfusion h
      · injection h with hh
        intro c hc
        rw [← hh] at hc
        simp at hc

/-- Helper: when the planned target is the agent's own position, the
computed next location is that position (shortest-pathing a node to
itself yields the singleton path). -/
theorem next_is_pos_of_self {gp : Finset Coord → Coord → Coord → Option (List Coord)}
    (Hself : ∀ g a p, gp g a a = some p → p = [a])
    {g : Finset Coord} {pos : Coord} {it : Bool} {vis : List Coord}
    {path : List Coord} {sp : ℚ} {nl : Coord × List Coord}
    (hgp : get_path gp g pos pos it vis = some path)
    (hne : path ≠ [])
    (hnl : get_next_location sp path = some nl) : nl.1 = pos := by
  unfold get_path at hgp
  split at hgp
  · rename_i p heq
    have hp := Hself g pos p heq
    subst hp
    by_cases h1 : pos ∈ vis
    · rw [if_pos h1] at hgp
      injection hgp with hh
      rw [← hh] at hnl
      exact get_next_location_singleton hnl
    · rw [if_neg h1] at hgp
      by_cases h2 : it = true
      · rw [if_pos h2] at hgp
        injection hgp with hh
        rw [← hh] at hnl
        exact get_next_location_singleton hnl
      · rw [if_neg h2] at hgp
        injection hgp with hh
        exact absurd hh.symm (by simpa using hne)
  · by_cases h1 : pos ∉ g
    · rw [if_pos h1] at hgp
      injection hgp with hh
      exact absurd hh.symm hne
    · rw [if_neg h1, if_neg h1] at hgp
      injection hgp with hh
      exact absurd hh.symm hne

/-- Helper: inside the movement loop `get_random_target` is a no-op,
because the loop runs with a planned target different from the agent's
position. -/
theorem grt_noop (model_nodes : Finset Coord) (env : Env) (m : MoveHuman)
    (draws : List Nat) (T : Coord) (hT : m.plannedTargetPos = some T)
    (hne : some T ≠ m.self.pos) :
    get_random_target model_nodes env m draws true = RTRes.ok m := by
  unfold get_random_target
  dsimp only
  rw [if_neg]
  intro hor
  rcases hor with h1 | h2
  · rw [hT] at h1
    exact Option.noConfusion h1
  · rw [hT] at h2
    exact hne h2

/-- Helper: with a planned target different from the agent's position,
`check_retreat` always reports a result (its random-target fallbacks
return immediately). -/
theorem check_retreat_ok (model_nodes : Finset Coord) (env : Env) (m : MoveHuman)
    (pos : Coord) (np : List Coord) (nl : Coord) (draws : List Nat) (T : Coord)
    (hT : m.plannedTargetPos = some T) (hne : some T ≠ m.self.pos) :
    ∃ b m2, check_retreat model_nodes env m pos np nl draws = RTRes.ok (b, m2) := by
  have hgrt : get_random_target model_nodes env m draws true = RTRes.ok m :=
    grt_noop model_nodes env m draws T hT hne
  unfold check_retreat
  dsimp only
  split
  · exact ⟨false, m, rfl⟩
  · split
    · split
      · rw [hgrt]
        exact ⟨true, _, rfl⟩
      · exact ⟨true, _, rfl⟩
    · rw [hgrt]
      exact ⟨true, _, rfl⟩

/-- Helper: one iteration of the movement loop either exits with an
outcome or repeats after pruning a node of the working graph. -/
theorem moveIter_cases (gp : Finset Coord → Coord → Coord → Option (List Coord))
    (edgesOf : Finset Coord → Coord → List (Coord × Coord)) (env : Env)
    (model_nodes : Finset Coord) (draws : List Nat) (performRand : ℚ)
    (Hmem : ∀ g a b p, gp g a b = some p → ∀ c ∈ p, c ∈ g)
    (Hself : ∀ g a p, gp g a a = some p → p = [a]) (st : LoopState) :
    (∃ st2 o, moveIter gp edgesOf env model_nodes draws performRand st = IterRes.exit st2 o)
    ∨ (∃ nl1, nl1 ∈ st.g
        ∧ moveIter gp edgesOf env model_nodes draws performRand st
          = IterRes.loop
              { st with pruned := st.pruned ++ edgesOf st.g nl1, g := st.g.erase nl1 }) := by
  unfold moveIter
  rcases hT : st.m.plannedTargetPos with _ | T
  · simp only [hT]
    exact Or.inl ⟨st, .noTarget, rfl⟩
  · simp only [hT]
    rcases hpos : st.m.self.pos with _ | pos
    · simp only [hpos]
      exact Or.inl ⟨st, .abort, rfl⟩
    · simp only [hpos]
      rcases hgp : get_path gp st.g pos T (location_is_traversable env T)
          (st.m.self.visible_tiles.map Prod.fst) with _ | path
      · simp only [hgp]
        exact Or.inl ⟨st, .abort, rfl⟩
      · simp only [hgp]
        by_cases hlen : path.length > 0
        · rw [if_pos hlen]
          rcases hnl : get_next_location st.m.self.speed path with _ | nl
          · simp only [hnl]
            exact Or.inl ⟨st, .abort, rfl⟩
          · simp only [hnl]
            by_cases heq : nl.1 = pos
            · rw [if_pos heq]
              exact Or.inl ⟨st, .samePos, rfl⟩
            · rw [if_neg heq]
              have hTpos : T ≠ pos := by
                intro hTeq
                subst hTeq
                exact heq (next_is_pos_of_self Hself hgp
                  (List.length_pos.mp hlen) hnl)
              have hne2 : some T ≠ st.m.self.pos := by
                simp only [hpos]
                intro hcon
                injection hcon with hcon2
                exact hTpos hcon2
              obtain ⟨b, m2, hcr⟩ := check_retreat_ok model_nodes env st.m pos
                nl.2 nl.1 draws T hT hne2
              cases b with
              | true =>
                simp only [hcr]
                exact Or.inl ⟨_, _, rfl⟩
              | false =>
                simp only [hcr]
                by_cases htrav : location_is_traversable env nl.1 = true
                · rw [if_pos htrav]
                  rcases hca : st.m.carryingAgent with _ | ca
                  · simp only [hca]
                    exact Or.inl ⟨_, _, rfl⟩
                  · simp only [hca]
                    by_cases hdead : get_status ca = some .dead
                    · rw [if_pos hdead]
                      exact Or.inl ⟨_, _, rfl⟩
                    · rw [if_neg hdead]
                      by_cases hmf : env.moveCarriedFails = true
                      · rw [if_pos hmf]
                        exact Or.inl ⟨_, _, rfl⟩
                      · rw [if_neg hmf]
                        exact Or.inl ⟨_, _, rfl⟩
                · rw [if_neg htrav]
                  by_cases hlast : path.getLast? = some pos
                  · rw [if_pos hlast]
                    by_cases hact : st.m.plannedAction.isSome = true
                    · rw [if_pos hact]
                      rcases hpa : perform_action performRand st.m with _ | m3
                      · simp only [hpa]
                        exact Or.inl ⟨_, _, rfl⟩
                      · simp only [hpa]
                        exact Or.inl ⟨_, _, rfl⟩
                    · rw [if_neg hact]
                      exact Or.inl ⟨_, _, rfl⟩
                  · rw [if_neg hlast]
                    by_cases hpush : ((env.contents nl.1).any (fun o =>
                          decide (o.kind = .human ∧ o.mobility ≠ .incapacitated)))
                        ∧ ((get_panic_score st.m.self ≥ PANIC_THRESHOLD
                              ∧ st.m.self.mobility = .normal)
                            ∨ st.m.self.mobility = .panic)
                    · rw [if_pos hpush]
                      exact Or.inl ⟨_, _, rfl⟩
                    · rw [if_neg hpush]
                      by_cases hlast2 : path.getLast? = some nl.1
                      · rw [if_pos hlast2]
                        exact Or.inl ⟨_, _, rfl⟩
                      · rw [if_neg hlast2]
                        refine Or.inr ⟨nl.1, ?_, rfl⟩
                        exact get_path_mem Hmem hgp nl.1 (get_next_location_mem hnl)
        · rw [if_neg hlen]
          exact Or.inl ⟨_, _, rfl⟩

/-- Helper: the movement loop reports a result whenever its fuel exceeds
the size of the working graph, since every repeat strictly shrinks the
graph. -/
theorem moveLoop_succeeds (gp : Finset Coord → Coord → Coord → Option (List Coord))
    (edgesOf : Finset Coord → Coord → List (Coord × Coord)) (env : Env)
    (model_nodes : Finset Coord) (draws : List Nat) (performRand : ℚ)
    (Hmem : ∀ g a b p, gp g a b = some p → ∀ c ∈ p, c ∈ g)
    (Hself : ∀ g a p, gp g a a = some p → p = [a]) :
    ∀ (fuel : Nat) (st : LoopState), st.g.card < fuel →
      ∃ r, moveLoop gp edgesOf env model_nodes draws performRand fuel st = some r := by
  intro fuel
  induction fuel with
  | zero =>
    intro st h
    exact absurd h (Nat.not_lt_zero _)
  | succ n ih =>
    intro st hcard
    rcases moveIter_cases gp edgesOf env model_nodes draws performRand Hmem Hself st
      with ⟨st2, o, hit⟩ | ⟨nl1, hmem, hit⟩
    · unfold moveLoop
      rw [hit]
      exact ⟨(st2, o), rfl⟩
    · unfold moveLoop
      rw [hit]
      apply ih
      exact lt_of_lt_of_le (Finset.card_erase_lt_of_mem hmem) (Nat.lt_succ_iff.mp hcard)

/-- Claim C2: a single invocation of `move_toward_target` terminates:
for every agent state, every finite working graph and every behavior of
the external services consistent with `networkx.shortest_path` (paths
consist of graph nodes; the shortest path from a node to itself is the
singleton), the movement loop ends — with a step taken, the plan
dropped, an arrival, a retreat or push redirection, no further progress
(`samePos`/`noTarget`), or a deliberately propagated exception — within
`card(graph) + 1` iterations, because the only repeating branch removes
a node from the working graph. -/
theorem move_toward_target_terminates
    (gp : Finset Coord → Coord → Coord → Option (List Coord))
    (edgesOf : Finset Coord → Coord → List (Coord × Coord)) (env : Env)
    (model_nodes : Finset Coord) (draws : List Nat) (performRand : ℚ)
    (g0 : Finset Coord) (m : MoveHuman)
    (Hmem : ∀ g a b p, gp g a b = some p → ∀ c ∈ p, c ∈ g)
    (Hself : ∀ g a p, gp g a a = some p → p = [a]) :
    ∃ r, move_toward_target gp edgesOf env model_nodes draws performRand g0 m = some r := by
  unfold move_toward_target
  dsimp only
  rcases hua : (if (update_target m).plannedAction.isSome then
      update_action (update_target m) else some (update_target m)) with _ | m2
  · exact ⟨_, rfl⟩
  · exact moveLoop_succeeds gp edgesOf env model_nodes draws performRand Hmem Hself
      (g0.card + 1) { m := m2, g := g0, pruned := [] } (Nat.lt_succ_self _)

/-- Witness for C2 at a concrete mover, an empty grid, and a path
service that always reports a networkx exception. -/
theorem move_toward_target_terminates_witness :
    ∃ r, move_toward_target trivialPathService trivialEdgeService emptyEnv ∅ [] 0 ∅
      witnessMover = some r :=
  move_toward_target_terminates trivialPathService trivialEdgeService emptyEnv ∅ [] 0 ∅
    witnessMover (fun g a b p h => Option.noConfusion h)
    (fun g a p h => Option.noConfusion h)

/-! ## C5: removal of dead and escaped agents -/

/-- Counterexample to claim C5 as stated: agent 7 escapes through the
fire exit — it is marked escaped and removed from the grid, yet it is
still a member of the activation schedule afterwards (the escape branch
of `Human.step` performs no `schedule.remove`; `die` does). -/
theorem escape_keeps_agent_in_schedule :
    (escape_branch escapeWorld 7 none).escapedFlag 7 = true
    ∧ (escape_branch escapeWorld 7 none).gridPos 7 = none
    ∧ 7 ∈ (escape_branch escapeWorld 7 none).schedule := by
  decide

/-- Amended C5: a dying agent is removed from both the schedule and the
grid; an escaping agent (and a carried agent released with it) is marked
escaped and removed from the grid only — the schedule is left unchanged —
and a further `step` of an escaped agent is a no-op because of the
`not self.escaped` guard. -/
theorem death_and_escape_removal (w : EvacModel) (a c : Nat) (p : Coord)
    (hpos : w.gridPos a = some p) (hfire : w.fire_started = true)
    (hexit : p ∈ w.fire_exits) (hca : c ≠ a) :
    (a ∉ (die w a).schedule ∧ (die w a).gridPos a = none)
    ∧ ((escape_branch w a none).gridPos a = none
        ∧ (escape_branch w a none).schedule = w.schedule
        ∧ (escape_branch w a none).escapedFlag a = true)
    ∧ ((escape_branch w a (some c)).gridPos a = none
        ∧ (escape_branch w a (some c)).gridPos c = none
        ∧ (escape_branch w a (some c)).escapedFlag c = true
        ∧ (escape_branch w a (some c)).schedule = w.schedule)
    ∧ (∀ body w2, w2.escapedFlag a = true → human_step body w2 a = w2) := by
  have hcond : w.fire_started = true ∧ p ∈ w.fire_exits := ⟨hfire, hexit⟩
  have hesc_none : escape_branch w a none = grid_remove_agent (set_escaped w a) a := by
    unfold escape_branch
    rw [hpos]
    dsimp only
    rw [if_pos hcond]
  have hesc_some : escape_branch w a (some c)
      = grid_remove_agent
          (set_escaped (grid_remove_agent (set_escaped w c) c) a) a := by
    unfold escape_branch
    rw [hpos]
    dsimp only
    rw [if_pos hcond]
  refine ⟨⟨?_, ?_⟩, ⟨?_, ?_, ?_⟩, ⟨?_, ?_, ?_, ?_⟩, ?_⟩
  · unfold die
    rw [hpos]
    simp [schedule_remove, grid_remove_agent, List.mem_filter]
  · unfold die
    rw [hpos]
    simp [schedule_remove, grid_remove_agent]
  · rw [hesc_none]
    simp [grid_remove_agent]
  · rw [hesc_none]
    rfl
  · rw [hesc_none]
    simp [grid_remove_agent, set_escaped]
  · rw [hesc_some]
    simp [grid_remove_agent]
  · rw [hesc_some]
    simp [grid_remove_agent, set_escaped, hca]
  · rw [hesc_some]
    simp [grid_remove_agent, set_escaped, hca]
  · rw [hesc_some]
    rfl
  · intro body w2 hesc
    unfold human_step
    rw [if_neg]
    intro hcon
    rw [hesc] at hcon
    exact absurd hcon.1 (by decide)

/-- Witness for the amended C5 at the concrete one-agent world. -/
theorem death_and_escape_removal_witness :
    escapeWorld.gridPos 7 = some (0, 0) ∧ escapeWorld.fire_started = true
    ∧ (0, 0) ∈ escapeWorld.fire_exits ∧ (8 : Nat) ≠ 7
    ∧ ((7 ∉ (die escapeWorld 7).schedule ∧ (die escapeWorld 7).gridPos 7 = none)
      ∧ ((escape_branch escapeWorld 7 none).gridPos 7 = none
          ∧ (escape_branch escapeWorld 7 none).schedule = escapeWorld.schedule
          ∧ (escape_branch escapeWorld 7 none).escapedFlag 7 = true)
      ∧ ((escape_branch escapeWorld 7 (some 8)).gridPos 7 = none
          ∧ (escape_branch escapeWorld 7 (some 8)).gridPos 8 = none
          ∧ (escape_branch escapeWorld 7 (some 8)).escapedFlag 8 = true
          ∧ (escape_branch escapeWorld 7 (some 8)).schedule = escapeWorld.schedule)
      ∧ (∀ body w2, w2.escapedFlag 7 = true → human_step body w2 7 = w2)) :=
  ⟨by decide, by decide, by decide, by decide,
    death_and_escape_removal escapeWorld 7 8 (0, 0) (by decide) (by decide)
      (by decide) (by decide)⟩

/-! ## C9: collaboration cost versus accumulated collaborations -/

/-- Helper: with the panic inputs held fixed, the collaboration cost is
strictly increasing in the total number of prior collaborations. -/
theorem collab_cost_lt (s t : HumanState)
    (hh : s.health = t.health) (hn : s.nervousness = t.nervousness)
    (he : s.experience = t.experience) (hs : s.shock = t.shock)
    (hc : total_collaboration_count s < total_collaboration_count t) :
    get_collaboration_cost s < get_collaboration_cost t := by
  have hp : get_panic_score s = get_panic_score t := by
    unfold get_panic_score
    rw [hh, hn, he, hs]
  have hexp : (1 : ℝ) / Real.exp (1 / ((total_collaboration_count s : ℝ) + 1))
      < 1 / Real.exp (1 / ((total_collaboration_count t : ℝ) + 1)) := by
    apply one_div_lt_one_div_of_lt (Real.exp_pos _)
    exact Real.exp_lt_exp.mpr (Nat.one_div_lt_one_div hc)
  unfold get_collaboration_cost
  rw [hp]
  have := hexp
  linarith

/-- Counterexample to claim C9 as stated: with the panic score held
fixed, one additional prior collaboration makes `get_collaboration_cost`
strictly larger, not smaller — the code comment itself says the
component grows with accumulated collaborations. -/
theorem collaboration_cost_counterexample :
    collabBase.health = collabMore.health
    ∧ collabBase.nervousness = collabMore.nervousness
    ∧ collabBase.experience = collabMore.experience
    ∧ collabBase.shock = collabMore.shock
    ∧ total_collaboration_count collabBase < total_collaboration_count collabMore
    ∧ get_collaboration_cost collabBase < get_collaboration_cost collabMore :=
  ⟨rfl, rfl, rfl, rfl, by decide,
    collab_cost_lt collabBase collabMore rfl rfl rfl rfl (by decide)⟩

/-- Amended C9: with panic inputs fixed, `get_collaboration_cost`
strictly increases with the total count of prior verbal, morale and
physical collaborations, so the stochastic gate `draw > cost` passes for
at most as many draws — collaboration becomes less likely, not more, as
collaboration acts accumulate. -/
theorem collaboration_cost_increases (s t : HumanState)
    (hh : s.health = t.health) (hn : s.nervousness = t.nervousness)
    (he : s.experience = t.experience) (hs : s.shock = t.shock)
    (hc : total_collaboration_count s < total_collaboration_count t) :
    get_collaboration_cost s < get_collaboration_cost t
    ∧ ∀ rand : ℝ, test_collaboration rand t → test_collaboration rand s := by
  refine ⟨collab_cost_lt s t hh hn he hs hc, ?_⟩
  intro rand h
  exact lt_trans (collab_cost_lt s t hh hn he hs hc) h

/-- Witness for the amended C9 at concrete agents differing by one
collaboration. -/
theorem collaboration_cost_increases_witness :
    get_collaboration_cost collabBase < get_collaboration_cost collabMore
    ∧ ∀ rand : ℝ, test_collaboration rand collabMore → test_collaboration rand collabBase :=
  collaboration_cost_increases collabBase collabMore rfl rfl rfl rfl (by decide)

/-! ## C8: a morale boost permanently prevents panic -/

/-- Helper: `stop_carrying` does not touch the agent's own scalar state. -/
theorem stop_carrying_self (m : MoveHuman) : (stop_carrying m).self = m.self := by
  unfold stop_carrying
  cases m.carryingAgent <;> rfl

/-- Helper: one step of the health/speed fold never touches mobility or
the morale flag. -/
theorem hm_step_preserves (s : HumanState) (o : Occupant) :
    (hm_step s o).mobility = s.mobility ∧ (hm_step s o).morale_boost = s.morale_boost := by
  unfold hm_step
  split
  · exact ⟨rfl, rfl⟩
  · split
    · dsimp only
      split
      · exact ⟨rfl, rfl⟩
      · exact ⟨rfl, rfl⟩
    · exact ⟨rfl, rfl⟩

/-- Helper: the whole health/speed fold never touches mobility or the
morale flag. -/
theorem healthFold_preserves (nb : List Occupant) :
    ∀ s : HumanState,
      (nb.foldl hm_step s).mobility = s.mobility
      ∧ (nb.foldl hm_step s).morale_boost = s.morale_boost := by
  induction nb with
  | nil => intro s; exact ⟨rfl, rfl⟩
  | cons o rest ih =>
    intro s
    simp only [List.foldl_cons]
    refine ⟨?_, ?_⟩
    · rw [(ih (hm_step s o)).1, (hm_step_preserves s o).1]
    · rw [(ih (hm_step s o)).2, (hm_step_preserves s o).2]

/-- Helper: the agent-level death effect only clears the position. -/
theorem die_agent_morale (x : MoveHuman) :
    (die_agent x).self.morale_boost = x.self.morale_boost := rfl

/-- Helper: the agent-level death effect does not change mobility. -/
theorem die_agent_mobility (x : MoveHuman) :
    (die_agent x).self.mobility = x.self.mobility := rfl

/-- Helper: incapacitation keeps the morale flag. -/
theorem incapacitate_morale (x : MoveHuman) :
    (incapacitate x).self.morale_boost = x.self.morale_boost := by
  unfold incapacitate
  dsimp only
  rw [stop_carrying_self]

/-- Helper: incapacitation sets mobility to INCAPACITATED. -/
theorem incapacitate_mobility (x : MoveHuman) :
    (incapacitate x).self.mobility = .incapacitated := rfl

/-- Helper: the health/speed rules keep the morale flag. -/
theorem health_mobility_rules_morale (nb : List Occupant) (m : MoveHuman) :
    (health_mobility_rules nb m).self.morale_boost = m.self.morale_boost := by
  have hfold := healthFold_preserves nb m.self
  unfold health_mobility_rules
  dsimp only
  repeat' split
  all_goals
    first
      | (rw [die_agent_morale, stop_carrying_self]; exact hfold.2)
      | (rw [incapacitate_morale]; exact hfold.2)
      | exact hfold.2

/-- Helper: the health/speed rules leave mobility unchanged or
incapacitate the agent. -/
theorem health_mobility_rules_mobility (nb : List Occupant) (m : MoveHuman) :
    (health_mobility_rules nb m).self.mobility = m.self.mobility
    ∨ (health_mobility_rules nb m).self.mobility = .incapacitated := by
  have hfold := healthFold_preserves nb m.self
  unfold health_mobility_rules
  dsimp only
  repeat' split
  all_goals
    first
      | (left; rw [die_agent_mobility, stop_carrying_self]; exact hfold.1)
      | (right; exact incapacitate_mobility _)
      | (left; exact hfold.1)

/-- Helper: every operation preserves the morale flag and, for a
morale-boosted agent, keeps mobility away from PANIC. -/
theorem applyOp_preserves (m : MoveHuman) (op : HOp)
    (hb : m.self.morale_boost = true) (hp : m.self.mobility ≠ .panic) :
    (applyOp m op).self.morale_boost = true ∧ (applyOp m op).self.mobility ≠ .panic := by
  cases op with
  | healthMobility nb =>
    constructor
    · show (health_mobility_rules nb m).self.morale_boost = true
      rw [health_mobility_rules_morale]
      exact hb
    · show (health_mobility_rules nb m).self.mobility ≠ .panic
      rcases health_mobility_rules_mobility nb m with h | h
      · rw [h]; exact hp
      · rw [h]; decide
  | setVisible v => exact ⟨hb, hp⟩
  | panicRules =>
    have hpr : panic_rules m = m := by
      unfold panic_rules
      rw [if_pos hb]
    show (panic_rules m).self.morale_boost = true ∧ (panic_rules m).self.mobility ≠ .panic
    rw [hpr]
    exact ⟨hb, hp⟩
  | moraleBoost he hr =>
    constructor
    · show ((attempt_morale_boost he hr m.self).1).morale_boost = true
      unfold attempt_morale_boost
      split
      · rfl
      · exact hb
    · show ((attempt_morale_boost he hr m.self).1).mobility ≠ .panic
      unfold attempt_morale_boost
      split
      · exact fun hcon => Mobility.noConfusion hcon
      · exact hp
  | faint =>
    constructor
    · show (incapacitate m).self.morale_boost = true
      rw [incapacitate_morale]
      exact hb
    · show (incapacitate m).self.mobility ≠ .panic
      rw [incapacitate_mobility]
      decide

/-- Helper: the invariant extends to any sequence of operations. -/
theorem applyOps_preserves (ops : List HOp) :
    ∀ m : MoveHuman, m.self.morale_boost = true → m.self.mobility ≠ .panic →
      (applyOps m ops).self.morale_boost = true
      ∧ (applyOps m ops).self.mobility ≠ .panic := by
  induction ops with
  | nil => intro m hb hp; exact ⟨hb, hp⟩
  | cons op rest ih =>
    intro m hb hp
    have h := applyOp_preserves m op hb hp
    exact ih (applyOp m op) h.1 h.2

/-- Claim C8: after a successful MORALE_SUPPORT sets the sticky
morale-boost flag, the agent never has PANIC mobility again under any
subsequent sequence of the mobility-writing operations (health/speed
rules, visibility refresh, panic rules with arbitrary views, further
morale attempts, fainting), however its panic score or shock later
evolve — `panic_rules` returns immediately for a boosted agent and is
the only assignment of PANIC. -/
theorem morale_boost_never_panics (m : MoveHuman) (helperExp rand : ℚ) (ops : List HOp)
    (hsucc : (attempt_morale_boost helperExp rand m.self).2 = true) :
    (applyOps { m with self := (attempt_morale_boost helperExp rand m.self).1 } ops).self.morale_boost = true
    ∧ (applyOps { m with self := (attempt_morale_boost helperExp rand m.self).1 } ops).self.mobility ≠ .panic := by
  have hcond : rand < helperExp / MAX_EXPERIENCE := by
    by_contra hcon
    unfold attempt_morale_boost at hsucc
    rw [if_neg hcon] at hsucc
    exact Bool.noConfusion hsucc
  have hstate : (attempt_morale_boost helperExp rand m.self).1
      = { m.self with morale_boost := true, mobility := .normal } := by
    unfold attempt_morale_boost
    rw [if_pos hcond]
  rw [hstate]
  exact applyOps_preserves ops _ rfl (by simp)

/-- Witness for C8: a concrete successful boost followed by a concrete
operation sequence. -/
theorem morale_boost_never_panics_witness :
    (attempt_morale_boost 10 0 ({} : MoveHuman).self).2 = true
    ∧ ((applyOps { ({} : MoveHuman) with
          self := (attempt_morale_boost 10 0 ({} : MoveHuman).self).1 }
        [.setVisible [((0, 0), [fireObject])], .panicRules, .healthMobility [smokeObject],
          .panicRules]).self.morale_boost = true
      ∧ (applyOps { ({} : MoveHuman) with
          self := (attempt_morale_boost 10 0 ({} : MoveHuman).self).1 }
        [.setVisible [((0, 0), [fireObject])], .panicRules, .healthMobility [smokeObject],
          .panicRules]).self.mobility ≠ .panic) :=
  ⟨by norm_num [attempt_morale_boost, MAX_EXPERIENCE],
    morale_boost_never_panics {} 10 0
      [.setVisible [((0, 0), [fireObject])], .panicRules, .healthMobility [smokeObject],
        .panicRules] (by norm_num [attempt_morale_boost, MAX_EXPERIENCE])⟩

end FireEvac
